import Mathlib

/-!
Verification development for the AES-Blake reference implementation
(`src/py_ref/src`).  The Python sources are shallowly embedded: machine
integers become `Nat` values reduced modulo `2^w`, mutable objects become
explicit state records, generators become step functions on a program
counter, and the random source becomes an explicit tape `Nat → Nat`.
-/

set_option maxHeartbeats 16000000
set_option maxRecDepth 2000000

namespace AESBlake

/-! ## Word algebra (embedding of `src/uint.py` / `src/integers`)

A `BaseUint` with bit count `w` stores `_value & max_value()`, i.e. the
value reduced modulo `2^w`.  All operators reduce their result the same
way (`_operate` constructs a fresh instance through the `value` setter).
-/

/-- `2^w - 1`, the `max_value()` of a `w`-bit uint. -/
def maxVal (w : Nat) : Nat := 2 ^ w - 1

/-- Reduction through the `value` setter: `value & self.max_value()`. -/
def red (w : Nat) (x : Nat) : Nat := x % 2 ^ w

/-- Wrapping addition `__add__`. -/
def addW (w a b : Nat) : Nat := (a + b) % 2 ^ w

/-- Wrapping subtraction `__sub__` (Python `(a - b) & max_value` on ints). -/
def subW (w a b : Nat) : Nat := (a + (2 ^ w - b % 2 ^ w)) % 2 ^ w

/-- Wrapping negation `__neg__`: `(-value) & max_value`. -/
def negW (w b : Nat) : Nat := (2 ^ w - b % 2 ^ w) % 2 ^ w

/-- Left shift `__lshift__` followed by the value-setter reduction. -/
def shlW (w a d : Nat) : Nat := (a <<< d) % 2 ^ w

/-- Right shift `__rshift__` (no reduction needed). -/
def shrW (a d : Nat) : Nat := a >>> d

/-- Bitwise complement `__invert__`: `~value & max_value`. -/
def notW (w a : Nat) : Nat := (2 ^ w - 1) - a % 2 ^ w

/-- `rotl`: rotate bits out from the left and back into the right. -/
def rotlW (w a n : Nat) : Nat :=
  let distance := n % w
  ((a >>> (w - distance)) ||| (a <<< distance)) % 2 ^ w

/-- `rotr`: rotate bits out from the right and back into the left. -/
def rotrW (w a n : Nat) : Nat :=
  let distance := n % w
  ((a >>> distance) ||| (a <<< (w - distance))) % 2 ^ w

/-- GF(2^8) doubling, `BaseAESBlock.xtime`:
`x = (a << 1) & 0xFF; y = -(a >> 7) & 0x1B; x ^ y`. -/
def xtime (a : Nat) : Nat :=
  ((a <<< 1) &&& 0xFF) ^^^ (negW 8 (a >>> 7) &&& 0x1B)

/-! ### Basic facts about the word operations -/

theorem xor_lt_256 {a b : Nat} (ha : a < 256) (hb : b < 256) : a ^^^ b < 256 :=
  Nat.xor_lt_two_pow (n := 8) ha hb

theorem xtime_lt_256 (a : Nat) (_ : a < 256) : xtime a < 256 := by
  have h1 : ((a <<< 1) &&& 0xFF) < 256 := by
    have := Nat.and_le_right (n := a <<< 1) (m := 0xFF)
    omega
  have h2 : (negW 8 (a >>> 7) &&& 0x1B) < 256 := by
    have := Nat.and_le_right (n := negW 8 (a >>> 7)) (m := 0x1B)
    omega
  exact xor_lt_256 h1 h2

theorem shiftLeft_xor_distrib (x y i : Nat) :
    (x ^^^ y) <<< i = (x <<< i) ^^^ (y <<< i) := by
  apply Nat.eq_of_testBit_eq
  intro j
  simp only [Nat.testBit_shiftLeft, Nat.testBit_xor]
  cases decide (j ≥ i) <;> simp

theorem shiftRight_xor_distrib (x y i : Nat) :
    (x ^^^ y) >>> i = (x >>> i) ^^^ (y >>> i) := by
  apply Nat.eq_of_testBit_eq
  intro j
  simp

theorem negW_and_1B_xor :
    ∀ s < 2, ∀ t < 2,
      negW 8 (s ^^^ t) &&& 0x1B = (negW 8 s &&& 0x1B) ^^^ (negW 8 t &&& 0x1B) := by
  decide

/-- `xtime` is GF(2)-linear on bytes. -/
theorem xtime_xor (a b : Nat) (ha : a < 256) (hb : b < 256) :
    xtime (a ^^^ b) = xtime a ^^^ xtime b := by
  have hs : a >>> 7 < 2 := by
    rw [Nat.shiftRight_eq_div_pow]; omega
  have ht : b >>> 7 < 2 := by
    rw [Nat.shiftRight_eq_div_pow]; omega
  unfold xtime
  rw [shiftLeft_xor_distrib, shiftRight_xor_distrib, Nat.and_xor_distrib_right,
    negW_and_1B_xor _ hs _ ht]
  generalize (a <<< 1) &&& 0xFF = A
  generalize (b <<< 1) &&& 0xFF = B
  generalize negW 8 (a >>> 7) &&& 0x1B = C
  generalize negW 8 (b >>> 7) &&& 0x1B = D
  rw [Nat.xor_assoc, Nat.xor_assoc]
  congr 1
  rw [← Nat.xor_assoc, ← Nat.xor_assoc, Nat.xor_comm B C]

/-! ## AES S-boxes

`src/aes_block/subclasses.py` reads the tables from `src.aes_block.sbox`,
a module that is not present under `src/`.  Modelled from the spec:
§4.2 requires "two public 256-entry tables, bit-exactly the standard AES
forward and inverse S-boxes", so the tables below are the standard
FIPS-197 tables (their values are independently cross-checked below
against the spec's table-free formulas `affine ∘ gf_inv`).
-/

def sboxENC : List Nat := [
  0x63, 0x7C, 0x77, 0x7B, 0xF2, 0x6B, 0x6F, 0xC5, 0x30, 0x01, 0x67, 0x2B, 0xFE, 0xD7, 0xAB, 0x76,
  0xCA, 0x82, 0xC9, 0x7D, 0xFA, 0x59, 0x47, 0xF0, 0xAD, 0xD4, 0xA2, 0xAF, 0x9C, 0xA4, 0x72, 0xC0,
  0xB7, 0xFD, 0x93, 0x26, 0x36, 0x3F, 0xF7, 0xCC, 0x34, 0xA5, 0xE5, 0xF1, 0x71, 0xD8, 0x31, 0x15,
  0x04, 0xC7, 0x23, 0xC3, 0x18, 0x96, 0x05, 0x9A, 0x07, 0x12, 0x80, 0xE2, 0xEB, 0x27, 0xB2, 0x75,
  0x09, 0x83, 0x2C, 0x1A, 0x1B, 0x6E, 0x5A, 0xA0, 0x52, 0x3B, 0xD6, 0xB3, 0x29, 0xE3, 0x2F, 0x84,
  0x53, 0xD1, 0x00, 0xED, 0x20, 0xFC, 0xB1, 0x5B, 0x6A, 0xCB, 0xBE, 0x39, 0x4A, 0x4C, 0x58, 0xCF,
  0xD0, 0xEF, 0xAA, 0xFB, 0x43, 0x4D, 0x33, 0x85, 0x45, 0xF9, 0x02, 0x7F, 0x50, 0x3C, 0x9F, 0xA8,
  0x51, 0xA3, 0x40, 0x8F, 0x92, 0x9D, 0x38, 0xF5, 0xBC, 0xB6, 0xDA, 0x21, 0x10, 0xFF, 0xF3, 0xD2,
  0xCD, 0x0C, 0x13, 0xEC, 0x5F, 0x97, 0x44, 0x17, 0xC4, 0xA7, 0x7E, 0x3D, 0x64, 0x5D, 0x19, 0x73,
  0x60, 0x81, 0x4F, 0xDC, 0x22, 0x2A, 0x90, 0x88, 0x46, 0xEE, 0xB8, 0x14, 0xDE, 0x5E, 0x0B, 0xDB,
  0xE0, 0x32, 0x3A, 0x0A, 0x49, 0x06, 0x24, 0x5C, 0xC2, 0xD3, 0xAC, 0x62, 0x91, 0x95, 0xE4, 0x79,
  0xE7, 0xC8, 0x37, 0x6D, 0x8D, 0xD5, 0x4E, 0xA9, 0x6C, 0x56, 0xF4, 0xEA, 0x65, 0x7A, 0xAE, 0x08,
  0xBA, 0x78, 0x25, 0x2E, 0x1C, 0xA6, 0xB4, 0xC6, 0xE8, 0xDD, 0x74, 0x1F, 0x4B, 0xBD, 0x8B, 0x8A,
  0x70, 0x3E, 0xB5, 0x66, 0x48, 0x03, 0xF6, 0x0E, 0x61, 0x35, 0x57, 0xB9, 0x86, 0xC1, 0x1D, 0x9E,
  0xE1, 0xF8, 0x98, 0x11, 0x69, 0xD9, 0x8E, 0x94, 0x9B, 0x1E, 0x87, 0xE9, 0xCE, 0x55, 0x28, 0xDF,
  0x8C, 0xA1, 0x89, 0x0D, 0xBF, 0xE6, 0x42, 0x68, 0x41, 0x99, 0x2D, 0x0F, 0xB0, 0x54, 0xBB, 0x16
]

def sboxDEC : List Nat := [
  0x52, 0x09, 0x6A, 0xD5, 0x30, 0x36, 0xA5, 0x38, 0xBF, 0x40, 0xA3, 0x9E, 0x81, 0xF3, 0xD7, 0xFB,
  0x7C, 0xE3, 0x39, 0x82, 0x9B, 0x2F, 0xFF, 0x87, 0x34, 0x8E, 0x43, 0x44, 0xC4, 0xDE, 0xE9, 0xCB,
  0x54, 0x7B, 0x94, 0x32, 0xA6, 0xC2, 0x23, 0x3D, 0xEE, 0x4C, 0x95, 0x0B, 0x42, 0xFA, 0xC3, 0x4E,
  0x08, 0x2E, 0xA1, 0x66, 0x28, 0xD9, 0x24, 0xB2, 0x76, 0x5B, 0xA2, 0x49, 0x6D, 0x8B, 0xD1, 0x25,
  0x72, 0xF8, 0xF6, 0x64, 0x86, 0x68, 0x98, 0x16, 0xD4, 0xA4, 0x5C, 0xCC, 0x5D, 0x65, 0xB6, 0x92,
  0x6C, 0x70, 0x48, 0x50, 0xFD, 0xED, 0xB9, 0xDA, 0x5E, 0x15, 0x46, 0x57, 0xA7, 0x8D, 0x9D, 0x84,
  0x90, 0xD8, 0xAB, 0x00, 0x8C, 0xBC, 0xD3, 0x0A, 0xF7, 0xE4, 0x58, 0x05, 0xB8, 0xB3, 0x45, 0x06,
  0xD0, 0x2C, 0x1E, 0x8F, 0xCA, 0x3F, 0x0F, 0x02, 0xC1, 0xAF, 0xBD, 0x03, 0x01, 0x13, 0x8A, 0x6B,
  0x3A, 0x91, 0x11, 0x41, 0x4F, 0x67, 0xDC, 0xEA, 0x97, 0xF2, 0xCF, 0xCE, 0xF0, 0xB4, 0xE6, 0x73,
  0x96, 0xAC, 0x74, 0x22, 0xE7, 0xAD, 0x35, 0x85, 0xE2, 0xF9, 0x37, 0xE8, 0x1C, 0x75, 0xDF, 0x6E,
  0x47, 0xF1, 0x1A, 0x71, 0x1D, 0x29, 0xC5, 0x89, 0x6F, 0xB7, 0x62, 0x0E, 0xAA, 0x18, 0xBE, 0x1B,
  0xFC, 0x56, 0x3E, 0x4B, 0xC6, 0xD2, 0x79, 0x20, 0x9A, 0xDB, 0xC0, 0xFE, 0x78, 0xCD, 0x5A, 0xF4,
  0x1F, 0xDD, 0xA8, 0x33, 0x88, 0x07, 0xC7, 0x31, 0xB1, 0x12, 0x10, 0x59, 0x27, 0x80, 0xEC, 0x5F,
  0x60, 0x51, 0x7F, 0xA9, 0x19, 0xB5, 0x4A, 0x0D, 0x2D, 0xE5, 0x7A, 0x9F, 0x93, 0xC9, 0x9C, 0xEF,
  0xA0, 0xE0, 0x3B, 0x4D, 0xAE, 0x2A, 0xF5, 0xB0, 0xC8, 0xEB, 0xBB, 0x3C, 0x83, 0x53, 0x99, 0x61,
  0x17, 0x2B, 0x04, 0x7E, 0xBA, 0x77, 0xD6, 0x26, 0xE1, 0x69, 0x14, 0x63, 0x55, 0x21, 0x0C, 0x7D
]

/-- `SBox.ENC.value[b]` -/
def encLookup (b : Nat) : Nat := sboxENC.getD b 0

/-- `SBox.DEC.value[b]` -/
def decLookup (b : Nat) : Nat := sboxDEC.getD b 0

theorem dec_enc_id : ∀ b < 256, decLookup (encLookup b) = b := by decide

theorem enc_dec_id : ∀ b < 256, encLookup (decLookup b) = b := by decide

theorem encLookup_lt_256 : ∀ b < 256, encLookup b < 256 := by decide

theorem decLookup_lt_256 : ∀ b < 256, decLookup b < 256 := by decide

/-! ## AES block engine (embedding of `src/aes_block/base_aes_block.py`
and the clean subclass of `src/aes_block/subclasses.py`)

A block is the ordered 16-byte state together with its round keys.
-/

abbrev Bytes := List Nat

structure AESBlockSt where
  state : Bytes
  round_keys : List Bytes
deriving DecidableEq, Repr

/-- `self.n_rounds = len(round_keys) - 1` -/
def AESBlockSt.nRounds (b : AESBlockSt) : Nat := b.round_keys.length - 1

/-- `AESBlock.sub_bytes`: each state byte through `SBox.ENC`. -/
def subBytesState (s : Bytes) : Bytes := s.map encLookup

/-- `AESBlock.inv_sub_bytes`: each state byte through `SBox.DEC`. -/
def invSubBytesState (s : Bytes) : Bytes := s.map decLookup

/-- `shift_rows` (three row rotations by simultaneous assignment). -/
def shiftRowsState (s : Bytes) : Bytes :=
  match s with
  | [s0, s1, s2, s3, s4, s5, s6, s7, s8, s9, s10, s11, s12, s13, s14, s15] =>
      [s0, s5, s10, s15, s4, s9, s14, s3, s8, s13, s2, s7, s12, s1, s6, s11]
  | _ => s

/-- `inv_shift_rows`. -/
def invShiftRowsState (s : Bytes) : Bytes :=
  match s with
  | [s0, s1, s2, s3, s4, s5, s6, s7, s8, s9, s10, s11, s12, s13, s14, s15] =>
      [s0, s13, s10, s7, s4, s1, s14, s11, s8, s5, s2, s15, s12, s9, s6, s3]
  | _ => s

/-- `mix_single_column` on one column `(s[a], s[b], s[c], s[d])`;
the sequential in-place updates become shadowing `let`s. -/
def mixCol (sa sb sc sd : Nat) : Nat × Nat × Nat × Nat :=
  let x := sa ^^^ sb ^^^ sc ^^^ sd
  let y := sa
  let sa := sa ^^^ (x ^^^ xtime (sa ^^^ sb))
  let sb := sb ^^^ (x ^^^ xtime (sb ^^^ sc))
  let sc := sc ^^^ (x ^^^ xtime (sc ^^^ sd))
  let sd := sd ^^^ (x ^^^ xtime (sd ^^^ y))
  (sa, sb, sc, sd)

/-- The per-column preamble of `inv_mix_columns` followed by the forward
`mix_single_column`. -/
def invMixCol (sa sb sc sd : Nat) : Nat × Nat × Nat × Nat :=
  let m := sa ^^^ sc
  let n := sb ^^^ sd
  let x := xtime (xtime m)
  let y := xtime (xtime n)
  let sa := sa ^^^ x
  let sb := sb ^^^ y
  let sc := sc ^^^ x
  let sd := sd ^^^ y
  mixCol sa sb sc sd

/-- `mix_columns`: `mix_single_column` on each of the four columns. -/
def mixColumnsState (s : Bytes) : Bytes :=
  match s with
  | [s0, s1, s2, s3, s4, s5, s6, s7, s8, s9, s10, s11, s12, s13, s14, s15] =>
      let (a0, a1, a2, a3) := mixCol s0 s1 s2 s3
      let (b0, b1, b2, b3) := mixCol s4 s5 s6 s7
      let (c0, c1, c2, c3) := mixCol s8 s9 s10 s11
      let (d0, d1, d2, d3) := mixCol s12 s13 s14 s15
      [a0, a1, a2, a3, b0, b1, b2, b3, c0, c1, c2, c3, d0, d1, d2, d3]
  | _ => s

/-- `inv_mix_columns`: the doubling preamble on every column, then the
forward `mix_columns`. -/
def invMixColumnsState (s : Bytes) : Bytes :=
  match s with
  | [s0, s1, s2, s3, s4, s5, s6, s7, s8, s9, s10, s11, s12, s13, s14, s15] =>
      let (a0, a1, a2, a3) := invMixCol s0 s1 s2 s3
      let (b0, b1, b2, b3) := invMixCol s4 s5 s6 s7
      let (c0, c1, c2, c3) := invMixCol s8 s9 s10 s11
      let (d0, d1, d2, d3) := invMixCol s12 s13 s14 s15
      [a0, a1, a2, a3, b0, b1, b2, b3, c0, c1, c2, c3, d0, d1, d2, d3]
  | _ => s

/-- `add_round_key(index)`: XOR `round_keys[index]` into the state. -/
def addRoundKeyState (s key : Bytes) : Bytes := s.zipWith (· ^^^ ·) key

def AESBlockSt.subBytes (b : AESBlockSt) : AESBlockSt :=
  { b with state := subBytesState b.state }

def AESBlockSt.invSubBytes (b : AESBlockSt) : AESBlockSt :=
  { b with state := invSubBytesState b.state }

def AESBlockSt.shiftRows (b : AESBlockSt) : AESBlockSt :=
  { b with state := shiftRowsState b.state }

def AESBlockSt.invShiftRows (b : AESBlockSt) : AESBlockSt :=
  { b with state := invShiftRowsState b.state }

def AESBlockSt.mixColumns (b : AESBlockSt) : AESBlockSt :=
  { b with state := mixColumnsState b.state }

def AESBlockSt.invMixColumns (b : AESBlockSt) : AESBlockSt :=
  { b with state := invMixColumnsState b.state }

def AESBlockSt.addRoundKey (i : Nat) (b : AESBlockSt) : AESBlockSt :=
  { b with state := addRoundKeyState b.state (b.round_keys.getD i []) }

/-! ### Inverse lemmas for the AES state operations -/

theorem xor_left_comm (a b c : Nat) : a ^^^ (b ^^^ c) = b ^^^ (a ^^^ c) := by
  rw [← Nat.xor_assoc, Nat.xor_comm a b, Nat.xor_assoc]

theorem mixCol_linear (a1 b1 c1 d1 a2 b2 c2 d2 : Nat)
    (ha1 : a1 < 256) (hb1 : b1 < 256) (hc1 : c1 < 256) (hd1 : d1 < 256)
    (ha2 : a2 < 256) (hb2 : b2 < 256) (hc2 : c2 < 256) (hd2 : d2 < 256) :
    mixCol (a1 ^^^ a2) (b1 ^^^ b2) (c1 ^^^ c2) (d1 ^^^ d2) =
      (let (u1, u2, u3, u4) := mixCol a1 b1 c1 d1
       let (v1, v2, v3, v4) := mixCol a2 b2 c2 d2
       (u1 ^^^ v1, u2 ^^^ v2, u3 ^^^ v3, u4 ^^^ v4)) := by
  simp only [mixCol]
  have e1 : (a1 ^^^ a2) ^^^ (b1 ^^^ b2) = (a1 ^^^ b1) ^^^ (a2 ^^^ b2) := by
    simp only [Nat.xor_assoc, xor_left_comm, Nat.xor_comm]
  have e2 : (b1 ^^^ b2) ^^^ (c1 ^^^ c2) = (b1 ^^^ c1) ^^^ (b2 ^^^ c2) := by
    simp only [Nat.xor_assoc, xor_left_comm, Nat.xor_comm]
  have e3 : (c1 ^^^ c2) ^^^ (d1 ^^^ d2) = (c1 ^^^ d1) ^^^ (c2 ^^^ d2) := by
    simp only [Nat.xor_assoc, xor_left_comm, Nat.xor_comm]
  have e4 : (d1 ^^^ d2) ^^^ (a1 ^^^ a2) = (d1 ^^^ a1) ^^^ (d2 ^^^ a2) := by
    simp only [Nat.xor_assoc, xor_left_comm, Nat.xor_comm]
  rw [e1, e2, e3, e4,
    xtime_xor _ _ (xor_lt_256 ha1 hb1) (xor_lt_256 ha2 hb2),
    xtime_xor _ _ (xor_lt_256 hb1 hc1) (xor_lt_256 hb2 hc2),
    xtime_xor _ _ (xor_lt_256 hc1 hd1) (xor_lt_256 hc2 hd2),
    xtime_xor _ _ (xor_lt_256 hd1 ha1) (xor_lt_256 hd2 ha2)]
  refine Prod.ext ?_ (Prod.ext ?_ (Prod.ext ?_ ?_)) <;>
    simp only [Nat.xor_assoc, xor_left_comm, Nat.xor_comm]

theorem invMixCol_linear (a1 b1 c1 d1 a2 b2 c2 d2 : Nat)
    (ha1 : a1 < 256) (hb1 : b1 < 256) (hc1 : c1 < 256) (hd1 : d1 < 256)
    (ha2 : a2 < 256) (hb2 : b2 < 256) (hc2 : c2 < 256) (hd2 : d2 < 256) :
    invMixCol (a1 ^^^ a2) (b1 ^^^ b2) (c1 ^^^ c2) (d1 ^^^ d2) =
      (let (u1, u2, u3, u4) := invMixCol a1 b1 c1 d1
       let (v1, v2, v3, v4) := invMixCol a2 b2 c2 d2
       (u1 ^^^ v1, u2 ^^^ v2, u3 ^^^ v3, u4 ^^^ v4)) := by
  simp only [invMixCol]
  have e1 : (a1 ^^^ a2) ^^^ (c1 ^^^ c2) = (a1 ^^^ c1) ^^^ (a2 ^^^ c2) := by
    simp only [Nat.xor_assoc, xor_left_comm, Nat.xor_comm]
  have e2 : (b1 ^^^ b2) ^^^ (d1 ^^^ d2) = (b1 ^^^ d1) ^^^ (b2 ^^^ d2) := by
    simp only [Nat.xor_assoc, xor_left_comm, Nat.xor_comm]
  rw [e1, e2,
    xtime_xor _ _ (xor_lt_256 ha1 hc1) (xor_lt_256 ha2 hc2),
    xtime_xor _ _ (xtime_lt_256 _ (xor_lt_256 ha1 hc1)) (xtime_lt_256 _ (xor_lt_256 ha2 hc2)),
    xtime_xor _ _ (xor_lt_256 hb1 hd1) (xor_lt_256 hb2 hd2),
    xtime_xor _ _ (xtime_lt_256 _ (xor_lt_256 hb1 hd1)) (xtime_lt_256 _ (xor_lt_256 hb2 hd2))]
  have gA1 : (a1 ^^^ a2) ^^^ (xtime (xtime (a1 ^^^ c1)) ^^^ xtime (xtime (a2 ^^^ c2)))
      = (a1 ^^^ xtime (xtime (a1 ^^^ c1))) ^^^ (a2 ^^^ xtime (xtime (a2 ^^^ c2))) := by
    simp only [Nat.xor_assoc, xor_left_comm, Nat.xor_comm]
  have gB1 : (b1 ^^^ b2) ^^^ (xtime (xtime (b1 ^^^ d1)) ^^^ xtime (xtime (b2 ^^^ d2)))
      = (b1 ^^^ xtime (xtime (b1 ^^^ d1))) ^^^ (b2 ^^^ xtime (xtime (b2 ^^^ d2))) := by
    simp only [Nat.xor_assoc, xor_left_comm, Nat.xor_comm]
  have gC1 : (c1 ^^^ c2) ^^^ (xtime (xtime (a1 ^^^ c1)) ^^^ xtime (xtime (a2 ^^^ c2)))
      = (c1 ^^^ xtime (xtime (a1 ^^^ c1))) ^^^ (c2 ^^^ xtime (xtime (a2 ^^^ c2))) := by
    simp only [Nat.xor_assoc, xor_left_comm, Nat.xor_comm]
  have gD1 : (d1 ^^^ d2) ^^^ (xtime (xtime (b1 ^^^ d1)) ^^^ xtime (xtime (b2 ^^^ d2)))
      = (d1 ^^^ xtime (xtime (b1 ^^^ d1))) ^^^ (d2 ^^^ xtime (xtime (b2 ^^^ d2))) := by
    simp only [Nat.xor_assoc, xor_left_comm, Nat.xor_comm]
  rw [gA1, gB1, gC1, gD1]
  exact mixCol_linear _ _ _ _ _ _ _ _
    (xor_lt_256 ha1 (xtime_lt_256 _ (xtime_lt_256 _ (xor_lt_256 ha1 hc1))))
    (xor_lt_256 hb1 (xtime_lt_256 _ (xtime_lt_256 _ (xor_lt_256 hb1 hd1))))
    (xor_lt_256 hc1 (xtime_lt_256 _ (xtime_lt_256 _ (xor_lt_256 ha1 hc1))))
    (xor_lt_256 hd1 (xtime_lt_256 _ (xtime_lt_256 _ (xor_lt_256 hb1 hd1))))
    (xor_lt_256 ha2 (xtime_lt_256 _ (xtime_lt_256 _ (xor_lt_256 ha2 hc2))))
    (xor_lt_256 hb2 (xtime_lt_256 _ (xtime_lt_256 _ (xor_lt_256 hb2 hd2))))
    (xor_lt_256 hc2 (xtime_lt_256 _ (xtime_lt_256 _ (xor_lt_256 ha2 hc2))))
    (xor_lt_256 hd2 (xtime_lt_256 _ (xtime_lt_256 _ (xor_lt_256 hb2 hd2))))

def xor4 (u v : Nat × Nat × Nat × Nat) : Nat × Nat × Nat × Nat :=
  (u.1 ^^^ v.1, u.2.1 ^^^ v.2.1, u.2.2.1 ^^^ v.2.2.1, u.2.2.2 ^^^ v.2.2.2)

theorem mixCol_linear' (a1 b1 c1 d1 a2 b2 c2 d2 : Nat)
    (ha1 : a1 < 256) (hb1 : b1 < 256) (hc1 : c1 < 256) (hd1 : d1 < 256)
    (ha2 : a2 < 256) (hb2 : b2 < 256) (hc2 : c2 < 256) (hd2 : d2 < 256) :
    mixCol (a1 ^^^ a2) (b1 ^^^ b2) (c1 ^^^ c2) (d1 ^^^ d2) =
      xor4 (mixCol a1 b1 c1 d1) (mixCol a2 b2 c2 d2) := by
  rw [mixCol_linear a1 b1 c1 d1 a2 b2 c2 d2 ha1 hb1 hc1 hd1 ha2 hb2 hc2 hd2]
  simp only [mixCol, xor4]

theorem invMixCol_linear' (a1 b1 c1 d1 a2 b2 c2 d2 : Nat)
    (ha1 : a1 < 256) (hb1 : b1 < 256) (hc1 : c1 < 256) (hd1 : d1 < 256)
    (ha2 : a2 < 256) (hb2 : b2 < 256) (hc2 : c2 < 256) (hd2 : d2 < 256) :
    invMixCol (a1 ^^^ a2) (b1 ^^^ b2) (c1 ^^^ c2) (d1 ^^^ d2) =
      xor4 (invMixCol a1 b1 c1 d1) (invMixCol a2 b2 c2 d2) := by
  rw [invMixCol_linear a1 b1 c1 d1 a2 b2 c2 d2 ha1 hb1 hc1 hd1 ha2 hb2 hc2 hd2]
  simp only [invMixCol, mixCol, xor4]

theorem mixCol_lt (a b c d : Nat)
    (ha : a < 256) (hb : b < 256) (hc : c < 256) (hd : d < 256) :
    (mixCol a b c d).1 < 256 ∧ (mixCol a b c d).2.1 < 256 ∧
      (mixCol a b c d).2.2.1 < 256 ∧ (mixCol a b c d).2.2.2 < 256 := by
  have hx : ((a ^^^ b ^^^ c ^^^ d) : Nat) < 256 :=
    xor_lt_256 (xor_lt_256 (xor_lt_256 ha hb) hc) hd
  refine ⟨?_, ?_, ?_, ?_⟩ <;> simp only [mixCol] <;>
    [exact xor_lt_256 ha (xor_lt_256 hx (xtime_lt_256 _ (xor_lt_256 ha hb)));
     exact xor_lt_256 hb (xor_lt_256 hx (xtime_lt_256 _ (xor_lt_256 hb hc)));
     exact xor_lt_256 hc (xor_lt_256 hx (xtime_lt_256 _ (xor_lt_256 hc hd)));
     exact xor_lt_256 hd (xor_lt_256 hx (xtime_lt_256 _ (xor_lt_256 hd ha)))]

theorem invMixCol_mixCol_basisA :
    ∀ v < 256, invMixCol (mixCol v 0 0 0).1 (mixCol v 0 0 0).2.1
      (mixCol v 0 0 0).2.2.1 (mixCol v 0 0 0).2.2.2 = (v, 0, 0, 0) := by decide

theorem invMixCol_mixCol_basisB :
    ∀ v < 256, invMixCol (mixCol 0 v 0 0).1 (mixCol 0 v 0 0).2.1
      (mixCol 0 v 0 0).2.2.1 (mixCol 0 v 0 0).2.2.2 = (0, v, 0, 0) := by decide

theorem invMixCol_mixCol_basisC :
    ∀ v < 256, invMixCol (mixCol 0 0 v 0).1 (mixCol 0 0 v 0).2.1
      (mixCol 0 0 v 0).2.2.1 (mixCol 0 0 v 0).2.2.2 = (0, 0, v, 0) := by decide

theorem invMixCol_mixCol_basisD :
    ∀ v < 256, invMixCol (mixCol 0 0 0 v).1 (mixCol 0 0 0 v).2.1
      (mixCol 0 0 0 v).2.2.1 (mixCol 0 0 0 v).2.2.2 = (0, 0, 0, v) := by decide

theorem invMixCol_mixCol (a b c d : Nat)
    (ha : a < 256) (hb : b < 256) (hc : c < 256) (hd : d < 256) :
    invMixCol (mixCol a b c d).1 (mixCol a b c d).2.1
      (mixCol a b c d).2.2.1 (mixCol a b c d).2.2.2 = (a, b, c, d) := by
  have h0 : (0 : Nat) < 256 := by norm_num
  have step1 : mixCol a b c d = xor4 (mixCol a 0 0 0) (mixCol 0 b c d) := by
    have := mixCol_linear' a 0 0 0 0 b c d ha h0 h0 h0 h0 hb hc hd
    simpa using this
  have step2 : mixCol 0 b c d = xor4 (mixCol 0 b 0 0) (mixCol 0 0 c d) := by
    have := mixCol_linear' 0 b 0 0 0 0 c d h0 hb h0 h0 h0 h0 hc hd
    simpa using this
  have step3 : mixCol 0 0 c d = xor4 (mixCol 0 0 c 0) (mixCol 0 0 0 d) := by
    have := mixCol_linear' 0 0 c 0 0 0 0 d h0 h0 hc h0 h0 h0 h0 hd
    simpa using this
  obtain ⟨pa1, pa2, pa3, pa4⟩ := mixCol_lt a 0 0 0 ha h0 h0 h0
  obtain ⟨pb1, pb2, pb3, pb4⟩ := mixCol_lt 0 b 0 0 h0 hb h0 h0
  obtain ⟨pc1, pc2, pc3, pc4⟩ := mixCol_lt 0 0 c 0 h0 h0 hc h0
  obtain ⟨pd1, pd2, pd3, pd4⟩ := mixCol_lt 0 0 0 d h0 h0 h0 hd
  rw [step1, step2, step3]
  simp only [xor4]
  rw [invMixCol_linear' _ _ _ _ _ _ _ _ pa1 pa2 pa3 pa4
        (xor_lt_256 pb1 (xor_lt_256 pc1 pd1)) (xor_lt_256 pb2 (xor_lt_256 pc2 pd2))
        (xor_lt_256 pb3 (xor_lt_256 pc3 pd3)) (xor_lt_256 pb4 (xor_lt_256 pc4 pd4)),
      invMixCol_linear' _ _ _ _ _ _ _ _ pb1 pb2 pb3 pb4
        (xor_lt_256 pc1 pd1) (xor_lt_256 pc2 pd2) (xor_lt_256 pc3 pd3) (xor_lt_256 pc4 pd4),
      invMixCol_linear' _ _ _ _ _ _ _ _ pc1 pc2 pc3 pc4 pd1 pd2 pd3 pd4]
  rw [show invMixCol (mixCol a 0 0 0).1 (mixCol a 0 0 0).2.1 (mixCol a 0 0 0).2.2.1
        (mixCol a 0 0 0).2.2.2 = (a, 0, 0, 0) from invMixCol_mixCol_basisA a ha,
      show invMixCol (mixCol 0 b 0 0).1 (mixCol 0 b 0 0).2.1 (mixCol 0 b 0 0).2.2.1
        (mixCol 0 b 0 0).2.2.2 = (0, b, 0, 0) from invMixCol_mixCol_basisB b hb,
      show invMixCol (mixCol 0 0 c 0).1 (mixCol 0 0 c 0).2.1 (mixCol 0 0 c 0).2.2.1
        (mixCol 0 0 c 0).2.2.2 = (0, 0, c, 0) from invMixCol_mixCol_basisC c hc,
      show invMixCol (mixCol 0 0 0 d).1 (mixCol 0 0 0 d).2.1 (mixCol 0 0 0 d).2.2.1
        (mixCol 0 0 0 d).2.2.2 = (0, 0, 0, d) from invMixCol_mixCol_basisD d hd]
  simp [xor4]

/-- Any list of length 16 destructures into 16 elements. -/
theorem exists16 {α : Type} : ∀ (s : List α), s.length = 16 →
    ∃ a0 a1 a2 a3 a4 a5 a6 a7 a8 a9 a10 a11 a12 a13 a14 a15,
      s = [a0, a1, a2, a3, a4, a5, a6, a7, a8, a9, a10, a11, a12, a13, a14, a15]
  | [a0, a1, a2, a3, a4, a5, a6, a7, a8, a9, a10, a11, a12, a13, a14, a15], _ =>
    ⟨a0, a1, a2, a3, a4, a5, a6, a7, a8, a9, a10, a11, a12, a13, a14, a15, rfl⟩

/-- All bytes of a state are in range. -/
def BoundedBytes (s : Bytes) : Prop := ∀ x ∈ s, x < 256

theorem encLookup_lt (b : Nat) : encLookup b < 256 := by
  by_cases h : b < 256
  · exact encLookup_lt_256 b h
  · unfold encLookup
    rw [List.getD_eq_default]
    · norm_num
    · have : sboxENC.length = 256 := by decide
      omega

theorem decLookup_lt (b : Nat) : decLookup b < 256 := by
  by_cases h : b < 256
  · exact decLookup_lt_256 b h
  · unfold decLookup
    rw [List.getD_eq_default]
    · norm_num
    · have : sboxDEC.length = 256 := by decide
      omega

theorem invShiftRows_shiftRows (s : Bytes) (h : s.length = 16) :
    invShiftRowsState (shiftRowsState s) = s := by
  obtain ⟨a0, a1, a2, a3, a4, a5, a6, a7, a8, a9, a10, a11, a12, a13, a14, a15, rfl⟩ :=
    exists16 s h
  rfl

theorem invSubBytes_subBytes (s : Bytes) (h : BoundedBytes s) :
    invSubBytesState (subBytesState s) = s := by
  induction s with
  | nil => rfl
  | cons a t ih =>
      have ha : a < 256 := h a (List.mem_cons_self a t)
      have ht : BoundedBytes t := fun x hx => h x (List.mem_cons_of_mem a hx)
      simp only [subBytesState, invSubBytesState, List.map_cons] at *
      rw [dec_enc_id a ha, ih ht]

theorem addRoundKey_involutive (s k : Bytes) (h : s.length = k.length) :
    addRoundKeyState (addRoundKeyState s k) k = s := by
  induction s generalizing k with
  | nil => cases k <;> rfl
  | cons a t ih =>
      cases k with
      | nil => simp at h
      | cons b u =>
          simp only [addRoundKeyState, List.zipWith_cons_cons] at *
          rw [Nat.xor_assoc, Nat.xor_self, Nat.xor_zero, ih u (by simpa using h)]

theorem invMixColumns_mixColumns (s : Bytes) (h : s.length = 16)
    (hb : BoundedBytes s) :
    invMixColumnsState (mixColumnsState s) = s := by
  obtain ⟨a0, a1, a2, a3, a4, a5, a6, a7, a8, a9, a10, a11, a12, a13, a14, a15, rfl⟩ :=
    exists16 s h
  simp only [BoundedBytes, List.mem_cons, forall_eq_or_imp, List.not_mem_nil] at hb
  obtain ⟨h0, h1, h2, h3, h4, h5, h6, h7, h8, h9, h10, h11, h12, h13, h14, h15, -⟩ := hb
  simp only [mixColumnsState, invMixColumnsState]
  rw [invMixCol_mixCol a0 a1 a2 a3 h0 h1 h2 h3,
    invMixCol_mixCol a4 a5 a6 a7 h4 h5 h6 h7,
    invMixCol_mixCol a8 a9 a10 a11 h8 h9 h10 h11,
    invMixCol_mixCol a12 a13 a14 a15 h12 h13 h14 h15]

/-! ### Cooperative round stepping

`BaseAESBlock.encrypt`/`decrypt` are Python generators.  A generator is
embedded as the block state plus a program counter `pc` counting the
yields already produced; `encNext`/`decNext` run the code between two
consecutive suspension points (they implement the generator body for the
`n_rounds ≥ 2` shape that every caller instantiates, `n_rounds = 10`).
`none` stands for a `StopIteration` that `next(gen, False)` turns into
`False`.
-/

/-- One intermediate encryption round: `sub_bytes; shift_rows;
mix_columns; add_round_key(i)`. -/
def encRoundBody (i : Nat) (b : AESBlockSt) : AESBlockSt :=
  (((b.subBytes).shiftRows).mixColumns).addRoundKey i

/-- The final steps `sub_bytes; shift_rows; add_round_key(n_rounds)`. -/
def encFinalPart (b : AESBlockSt) : AESBlockSt :=
  ((b.subBytes).shiftRows).addRoundKey b.nRounds

/-- `add_round_key(n_rounds); inv_shift_rows; inv_sub_bytes`. -/
def decPrologue (b : AESBlockSt) : AESBlockSt :=
  ((b.addRoundKey b.nRounds).invShiftRows).invSubBytes

/-- One intermediate decryption round: `add_round_key(i); inv_mix_columns;
inv_shift_rows; inv_sub_bytes`. -/
def decRoundBody (i : Nat) (b : AESBlockSt) : AESBlockSt :=
  (((b.addRoundKey i).invMixColumns).invShiftRows).invSubBytes

structure AESGen where
  blk : AESBlockSt
  pc : Nat
deriving DecidableEq, Repr

instance : Inhabited AESGen := ⟨⟨⟨[], []⟩, 0⟩⟩

/-- Resume the `encrypt` generator from its `pc`-th suspension point. -/
def encNext (g : AESGen) : Option Bool × AESGen :=
  let n := g.blk.nRounds
  if g.pc = 0 then (some true, ⟨g.blk.addRoundKey 0, 1⟩)
  else if g.pc ≤ n - 2 then (some true, ⟨encRoundBody g.pc g.blk, g.pc + 1⟩)
  else if g.pc = n - 1 then
    (some false, ⟨encFinalPart (encRoundBody (n - 1) g.blk), n⟩)
  else (none, g)

/-- Resume the `decrypt` generator from its `pc`-th suspension point. -/
def decNext (g : AESGen) : Option Bool × AESGen :=
  let n := g.blk.nRounds
  if g.pc = 0 then (some true, ⟨decRoundBody (n - 1) (decPrologue g.blk), 1⟩)
  else if g.pc ≤ n - 2 then (some true, ⟨decRoundBody (n - 1 - g.pc) g.blk, g.pc + 1⟩)
  else if g.pc = n - 1 then (some false, ⟨g.blk.addRoundKey 0, n⟩)
  else (none, g)

/-! ## Cross-lane column exchange (`BaseAESBlake.exchange_columns`) -/

/-- The reassembled state for one lane: the four 4-byte column slices
`clones[indices[k]].state[4k : 4k+4]`. -/
def exchangeState (states : List Bytes) (indices : List Nat) : Bytes :=
  ((states.getD (indices.getD 0 0) []).take 4) ++
  (((states.getD (indices.getD 1 0) []).drop 4).take 4) ++
  (((states.getD (indices.getD 2 0) []).drop 8).take 4) ++
  (((states.getD (indices.getD 3 0) []).drop 12).take 4)

/-- `exchange_columns` on the list of lane states: lane `i` is reassembled
from the pre-exchange clones when `i < len(pattern)`, else untouched. -/
def exchangeStates (pat : List (List Nat)) (states : List Bytes) : List Bytes :=
  states.mapIdx fun i s =>
    match pat.get? i with
    | none => s
    | some indices => exchangeState states indices

/-- `exchange_columns` acting on the AES block objects. -/
def exchangeColumnsB (pat : List (List Nat)) (blocks : List AESBlockSt) :
    List AESBlockSt :=
  List.zipWith (fun b s => { b with state := s }) blocks
    (exchangeStates pat (blocks.map AESBlockSt.state))

/-- `exchange_columns` acting through the generator objects (the driver
holds the same blocks the suspended generators operate on). -/
def exchangeGens (pat : List (List Nat)) (gens : List AESGen) : List AESGen :=
  List.zipWith (fun g s => { g with blk := { g.blk with state := s } }) gens
    (exchangeStates pat (gens.map (fun g => g.blk.state)))

/-- `AESBlake256.ex_cols_pattern` -/
def exColsPattern256 (inverse : Bool) : List (List Nat) :=
  let enc := [[0, 1, 0, 1], [1, 0, 1, 0]]
  let dec := [[0, 1, 0, 1], [1, 0, 1, 0]]
  if inverse then dec else enc

/-- `AESBlake512.ex_cols_pattern` -/
def exColsPattern512 (inverse : Bool) : List (List Nat) :=
  let enc := [[0, 1, 2, 3], [1, 2, 3, 0], [2, 3, 0, 1], [3, 0, 1, 2]]
  let dec := [[0, 3, 2, 1], [1, 0, 3, 2], [2, 1, 0, 3], [3, 2, 1, 0]]
  if inverse then dec else enc

/-! ## Driver round loops (`run_encryption_rounds`, `run_decryption_rounds`)

The Python `while keep_running` loop advances every generator once, then
exchanges columns; `keep_running` ends up holding the last lane's yield.
The loop is embedded with a fuel parameter; every caller passes enough
fuel for the loop to reach its `False` yield (10 iterations when
`n_rounds = 10`), so the fuel never runs out.  The second component
counts the `exchange_columns` calls performed.
-/

def runEncLoop (pat : List (List Nat)) : Nat → List AESGen → (List AESGen × Nat)
  | 0, gens => (gens, 0)
  | fuel + 1, gens =>
      let stepped := gens.map encNext
      let keep := (stepped.map (fun r => r.1.getD false)).getLastD false
      let gens' := exchangeGens pat (stepped.map Prod.snd)
      if keep then
        let (res, c) := runEncLoop pat fuel gens'
        (res, c + 1)
      else (gens', 1)

def runDecLoop (pat : List (List Nat)) : Nat → List AESGen → (List AESGen × Nat)
  | 0, gens => (gens, 0)
  | fuel + 1, gens =>
      let gens₁ := exchangeGens pat gens
      let stepped := gens₁.map decNext
      let keep := (stepped.map (fun r => r.1.getD false)).getLastD false
      let gens' := stepped.map Prod.snd
      if keep then
        let (res, c) := runDecLoop pat fuel gens'
        (res, c + 1)
      else (gens', 1)

def loopFuel (blocks : List AESBlockSt) : Nat :=
  (blocks.map (fun b => b.round_keys.length)).foldr max 0 + 2

/-- `BaseAESBlake.run_encryption_rounds` (given the blocks already built),
also reporting how many `exchange_columns` calls were made. -/
def runEncryptionRounds (pat : List (List Nat)) (blocks : List AESBlockSt) :
    List AESBlockSt × Nat :=
  let gens := blocks.map (fun b => AESGen.mk b 0)
  let (gens', count) := runEncLoop pat (loopFuel blocks) gens
  (gens'.map AESGen.blk, count)

/-- `BaseAESBlake.run_decryption_rounds` (given the blocks already built). -/
def runDecryptionRounds (pat : List (List Nat)) (blocks : List AESBlockSt) :
    List AESBlockSt × Nat :=
  let gens := blocks.map (fun b => AESGen.mk b 0)
  let (gens', count) := runDecLoop pat (loopFuel blocks) gens
  (gens'.map AESGen.blk, count)

/-! ## BLAKE key derivation (embedding of `src/blake_keygen/base_blake.py`
and `src/blake_keygen/clean_blake.py`) -/

inductive KDFDomain | CTX | MSG | HDR | CHK
deriving DecidableEq, Repr

/-- The two instantiations `Blake32` / `Blake64`. -/
inductive Tier | t32 | t64
deriving DecidableEq, Repr

def Tier.w : Tier → Nat
  | .t32 => 32
  | .t64 => 64

/-- `rots()` per tier. -/
def Tier.rots : Tier → List Nat
  | .t32 => [16, 12, 8, 7]
  | .t64 => [32, 24, 16, 63]

/-- `ivs()` per tier. -/
def Tier.ivs : Tier → List Nat
  | .t32 => [0x6A09E667, 0xBB67AE85, 0x3C6EF372, 0xA54FF53A,
             0x510E527F, 0x9B05688C, 0x1F83D9AB, 0x5BE0CD19]
  | .t64 => [0x6A09E667F3BCC908, 0xBB67AE8584CAA73B, 0x3C6EF372FE94F82B,
             0xA54FF53A5F1D36F1, 0x510E527FADE682D1, 0x9B05688C2B3E6C1F,
             0x1F83D9ABFB41BD6B, 0x5BE0CD19137E2179]

/-- `domain_mask(domain)` per tier. -/
def Tier.domainMask : Tier → KDFDomain → Nat
  | .t32, .CTX => 0
  | .t32, .MSG => 0x00F0000F
  | .t32, .HDR => 0x0F000F00
  | .t32, .CHK => 0xF00F0000
  | .t64, .CTX => 0
  | .t64, .MSG => 0x0000FF00000000FF
  | .t64, .HDR => 0x00FF000000FF0000
  | .t64, .CHK => 0xFF0000FF00000000

/-- Big-endian `int.from_bytes`. -/
def beBytesToNat (bs : List Nat) : Nat := bs.foldl (fun acc b => acc * 256 + b) 0

/-- Big-endian `to_bytes` of a `w`-bit word (`w/8` bytes). -/
def wordBytes (w v : Nat) : Bytes :=
  (List.range (w / 8)).map (fun j => (v >>> (w - 8 * (j + 1))) % 256)

/-- `bytes_to_uint_vector`: right-pad with zeros, truncate to
`chunk_size * vec_len`, read big-endian chunks. -/
def bytesToUintVector (w : Nat) (data : List Nat) (vecLen : Nat) : List Nat :=
  let chunkSize := w / 8
  let padSize := chunkSize * vecLen
  let sized := (data ++ List.replicate padSize 0).take padSize
  (List.range vecLen).map (fun i => beBytesToNat ((sized.drop (i * chunkSize)).take chunkSize))

/-- `compute_key_nonce_composite`. -/
def computeKnc (w : Nat) (key nonce : List Nat) : List Nat :=
  let half := w / 2
  let mask1 := 2 ^ half - 1
  let mask2 := mask1 <<< half
  (List.range 8).flatMap (fun i =>
    [((key.getD i 0) &&& mask2) ||| ((nonce.getD i 0) &&& mask1),
     ((nonce.getD i 0) &&& mask2) ||| ((key.getD i 0) &&& mask1)])

structure BlakeKeygen where
  tier : Tier
  key : List Nat
  nonce : List Nat
  context : List Nat
  state : List Nat
  knc : List Nat
deriving DecidableEq, Repr

/-- `BaseBlake.__init__`. -/
def mkKeygen (tier : Tier) (key nonce context : List Nat) : BlakeKeygen :=
  let k := bytesToUintVector tier.w key 8
  let n := bytesToUintVector tier.w nonce 8
  { tier := tier, key := k, nonce := n,
    context := bytesToUintVector tier.w context 16,
    state := List.replicate 16 0,
    knc := computeKnc tier.w k n }

/-- `g_mix` on the 16-word state vector. -/
def gMix (w : Nat) (rots : List Nat) (a b c d : Nat) (mx my : Nat)
    (v : List Nat) : List Nat :=
  let v := v.set a (addW w (addW w (v.getD a 0) (v.getD b 0)) mx)
  let v := v.set d (rotrW w ((v.getD d 0) ^^^ (v.getD a 0)) (rots.getD 0 0))
  let v := v.set c (addW w (v.getD c 0) (v.getD d 0))
  let v := v.set b (rotrW w ((v.getD b 0) ^^^ (v.getD c 0)) (rots.getD 1 0))
  let v := v.set a (addW w (addW w (v.getD a 0) (v.getD b 0)) my)
  let v := v.set d (rotrW w ((v.getD d 0) ^^^ (v.getD a 0)) (rots.getD 2 0))
  let v := v.set c (addW w (v.getD c 0) (v.getD d 0))
  let v := v.set b (rotrW w ((v.getD b 0) ^^^ (v.getD c 0)) (rots.getD 3 0))
  v

/-- `mix_into_state`: four columnar then four diagonal `g_mix` calls. -/
def mixIntoState (w : Nat) (rots : List Nat) (st m : List Nat) : List Nat :=
  let g := fun a b c d i j v => gMix w rots a b c d (m.getD i 0) (m.getD j 0) v
  (g 3 4 9 14 14 15 (g 2 7 8 13 12 13 (g 1 6 11 12 10 11 (g 0 5 10 15 8 9
    (g 3 7 11 15 6 7 (g 2 6 10 14 4 5 (g 1 5 9 13 2 3 (g 0 4 8 12 0 1 st))))))))

/-- The fixed BLAKE3 message permutation schedule. -/
def permute (m : List Nat) : List Nat :=
  [2, 6, 3, 10, 7, 0, 4, 13, 1, 11, 12, 5, 9, 14, 15, 8].map (fun i => m.getD i 0)

/-- `init_state_vector(entropy, counter, domain)`. -/
def initStateVector (tier : Tier) (entropy : List Nat) (counter : Nat)
    (domain : KDFDomain) : List Nat :=
  let w := tier.w
  let ivs := tier.ivs
  let st := (ivs.take 4) ++ entropy ++ (ivs.drop 4)
  let ctrLow := counter &&& 0xFFFFFFFF
  let ctrHigh := (counter >>> 32) &&& 0xFFFFFFFF
  let addAt := fun (st : List Nat) (i : Nat) (v : Nat) => st.set i (addW w (st.getD i 0) v)
  let st := addAt st 4 ctrLow
  let st := addAt st 8 ctrHigh
  let st := addAt st 5 ctrLow
  let st := addAt st 9 ctrHigh
  let st := addAt st 6 ctrLow
  let st := addAt st 10 ctrHigh
  let st := addAt st 7 ctrLow
  let st := addAt st 11 ctrHigh
  let dm := tier.domainMask domain
  let st := st.set 12 ((st.getD 12 0) ^^^ dm)
  let st := st.set 13 ((st.getD 13 0) ^^^ dm)
  let st := st.set 14 ((st.getD 14 0) ^^^ dm)
  let st := st.set 15 ((st.getD 15 0) ^^^ dm)
  st

/-- `digest_context`: nine mix-and-permute rounds and a tenth mix. -/
def digestContext (kg : BlakeKeygen) : BlakeKeygen :=
  let w := kg.tier.w
  let rots := kg.tier.rots
  let st0 := initStateVector kg.tier kg.key 0 .CTX
  let step := fun (p : List Nat × List Nat) =>
    (mixIntoState w rots p.1 p.2, permute p.2)
  let p := step (step (step (step (step (step (step (step (step (st0, kg.context)))))))))
  { kg with state := mixIntoState w rots p.1 p.2, context := p.2 }

/-- Extraction of one 16-byte round key from `state[4:8]` (32-bit tier). -/
def extractRk32 (st : List Nat) : Bytes :=
  ((st.drop 4).take 4).flatMap (wordBytes 32)

/-- Extraction of the two 16-byte round keys from `state[4:6]` and
`state[6:8]` (64-bit tier). -/
def extractRk64a (st : List Nat) : Bytes := ((st.drop 4).take 2).flatMap (wordBytes 64)

def extractRk64b (st : List Nat) : Bytes := ((st.drop 6).take 2).flatMap (wordBytes 64)

/-- The `add_round_key` / permute loop of `Blake32.derive_keys`:
`key_count - 1` mix-extract-permute rounds and a final mix-extract. -/
def deriveIter32 (w : Nat) (rots : List Nat) :
    Nat → List Nat → List Nat → List Bytes
  | 0, st, knc =>
      let st' := mixIntoState w rots st knc
      [extractRk32 st']
  | k + 1, st, knc =>
      let st' := mixIntoState w rots st knc
      extractRk32 st' :: deriveIter32 w rots k st' (permute knc)

/-- The corresponding loop of `Blake64.derive_keys`, extracting two keys
per round into two lists. -/
def deriveIter64 (w : Nat) (rots : List Nat) :
    Nat → List Nat → List Nat → List Bytes × List Bytes
  | 0, st, knc =>
      let st' := mixIntoState w rots st knc
      ([extractRk64a st'], [extractRk64b st'])
  | k + 1, st, knc =>
      let st' := mixIntoState w rots st knc
      let (r1, r2) := deriveIter64 w rots k st' (permute knc)
      (extractRk64a st' :: r1, extractRk64b st' :: r2)

/-- The two entropy sources `state[0:4]+state[8:12]` and
`state[4:8]+state[12:16]`. -/
def entropy1 (st : List Nat) : List Nat := (st.take 4) ++ ((st.drop 8).take 4)

def entropy2 (st : List Nat) : List Nat := ((st.drop 4).take 4) ++ (st.drop 12)

/-- `Blake32.derive_keys`: two round-key lists, one per entropy source. -/
def deriveKeys32 (kg : BlakeKeygen) (keyCount blockCounter : Nat)
    (domain : KDFDomain) : List (List Bytes) :=
  let w := kg.tier.w
  let rots := kg.tier.rots
  let run := fun entropy =>
    let st0 := initStateVector kg.tier entropy blockCounter domain
    deriveIter32 w rots (keyCount - 1) st0 kg.knc
  [run (entropy1 kg.state), run (entropy2 kg.state)]

/-- `Blake64.derive_keys`: four round-key lists `[k1, k2, k3, k4]`. -/
def deriveKeys64 (kg : BlakeKeygen) (keyCount blockCounter : Nat)
    (domain : KDFDomain) : List (List Bytes) :=
  let w := kg.tier.w
  let rots := kg.tier.rots
  let run := fun entropy =>
    let st0 := initStateVector kg.tier entropy blockCounter domain
    deriveIter64 w rots (keyCount - 1) st0 kg.knc
  let g1 := run (entropy1 kg.state)
  let g2 := run (entropy2 kg.state)
  [g1.1, g1.2, g2.1, g2.2]

/-- Tier dispatch for `self.keygen.derive_keys`. -/
def deriveKeys (kg : BlakeKeygen) (keyCount blockCounter : Nat)
    (domain : KDFDomain) : List (List Bytes) :=
  match kg.tier with
  | .t32 => deriveKeys32 kg keyCount blockCounter domain
  | .t64 => deriveKeys64 kg keyCount blockCounter domain

/-- `derive_keys` as a state transformer on the keygen object: the method
reads `self.state` and `self.knc` but only ever mutates the `deepcopy`s
(`ent_src` and the per-entropy `keygen`), never `self`, so the outgoing
`self` is the incoming one. -/
def deriveKeysSt (kg : BlakeKeygen) (keyCount blockCounter : Nat)
    (domain : KDFDomain) : List (List Bytes) × BlakeKeygen :=
  (deriveKeys kg keyCount blockCounter domain, kg)

/-! ## AEAD driver (embedding of `src/aes_blake/base_aes_blake.py` and
`src/aes_blake/clean_aes_blake.py`) -/

/-- The `ValueError`s the driver can raise, one constructor per distinct
`raise` site. -/
inductive DriverError
  /-- "Invalid input data length" in `validate_convert_inputs` -/
  | invalidInput
  /-- "Data cannot be an empty list" in `group_by` -/
  | emptyData
  /-- "Size must be a positive integer" in `group_by` -/
  | sizeNotPositive
  /-- "Cannot divide list of length n into groups of size" in `group_by` -/
  | notDivisible
  /-- "Failed to verify auth tag" in `decrypt` -/
  | authFailure
deriving DecidableEq, Repr

/-- `CheckSum.xor_with`: `state[i] ^= data[i]` for each index of `data`
(both are 16 long at every call site). -/
def checksumXorWith (st data : Bytes) : Bytes :=
  (List.zipWith (· ^^^ ·) st data) ++ st.drop data.length

/-- `CheckSum.create_many(n)`: `n` fresh all-zero 16-byte accumulators. -/
def checksumCreateMany (n : Nat) : List Bytes :=
  List.replicate n (List.replicate 16 0)

/-- The cipher object: tier (selecting keygen/pattern), digested keygen,
block counter.  `aes_block_bytes = 16`, `aes_blocks_count = bit_length/16`,
`key_count = 11`. -/
structure AESBlakeSt where
  tier : Tier
  keygen : BlakeKeygen
  block_counter : Nat
deriving DecidableEq, Repr

/-- `AESBlake256(key, nonce, context)` / `AESBlake512(...)`:
builds the keygen and immediately digests the context. -/
def mkCipher (tier : Tier) (key nonce context : List Nat) : AESBlakeSt :=
  { tier := tier,
    keygen := digestContext (mkKeygen tier key nonce context),
    block_counter := 0 }

def AESBlakeSt.blocksCount (c : AESBlakeSt) : Nat := c.tier.w / 16

def AESBlakeSt.totalBytes (c : AESBlakeSt) : Nat := c.blocksCount * 16

/-- `ex_cols_pattern(inverse)` of the tier subclass. -/
def AESBlakeSt.pattern (c : AESBlakeSt) (inverse : Bool) : List (List Nat) :=
  match c.tier with
  | .t32 => exColsPattern256 inverse
  | .t64 => exColsPattern512 inverse

/-- The chunking loop of `split_bytes`, with the list length as
structural fuel (every call site has `chunk_size > 0`, so the fuel never
runs out before the data does). -/
def chunkAux {α : Type} (cs : Nat) : Nat → List α → List (List α)
  | _, [] => []
  | 0, _ => []
  | fuel + 1, data => data.take cs :: chunkAux cs fuel (data.drop cs)

/-- `split_bytes(data, chunk_size)`. -/
def splitBytes (data : List Nat) (cs : Nat) : List Bytes :=
  chunkAux cs data.length data

/-- `group_by(data, size)` with its three error cases. -/
def groupBy (data : List Bytes) (size : Nat) : Except DriverError (List (List Bytes)) :=
  if data = [] then .error .emptyData
  else if size = 0 then .error .sizeNotPositive
  else if data.length % size ≠ 0 then .error .notDivisible
  else .ok (chunkAux size data.length data)

/-- `validate_convert_inputs`. -/
def validateConvertInputs (c : AESBlakeSt) (text header : List Nat) :
    Except DriverError (List Bytes × List Bytes) :=
  if text.length % c.totalBytes ≠ 0 then .error .invalidInput
  else if header.length % c.totalBytes ≠ 0 then .error .invalidInput
  else .ok (splitBytes text 16, splitBytes header 16)

/-- `create_aes_blocks(chunks, domain)`. -/
def createAesBlocks (c : AESBlakeSt) (chunks : List Bytes) (domain : KDFDomain) :
    List AESBlockSt :=
  let keys := deriveKeys c.keygen 11 c.block_counter domain
  List.zipWith (fun chunk k => AESBlockSt.mk chunk k) chunks keys

/-- The per-group body of the `encrypt` loop, threading
`(ciphertext, checksums, counter)`. -/
def encryptGroupStep (c : AESBlakeSt) (acc : List Nat × List Bytes × Nat)
    (group : List Bytes) : List Nat × List Bytes × Nat :=
  let (ciphertext, checksums, counter) := acc
  let blocks := createAesBlocks { c with block_counter := counter } group .MSG
  let encBlocks := (runEncryptionRounds (c.pattern false) blocks).1
  (ciphertext ++ (encBlocks.map AESBlockSt.state).flatten,
   List.zipWith checksumXorWith checksums group,
   counter + 1)

/-- The per-group body of the header loop in `compute_auth_tag`. -/
def headerGroupStep (c : AESBlakeSt) (acc : List Bytes × Nat)
    (group : List Bytes) : List Bytes × Nat :=
  let (checksums, counter) := acc
  let blocks := createAesBlocks { c with block_counter := counter } group .HDR
  let encBlocks := (runEncryptionRounds (c.pattern false) blocks).1
  (List.zipWith checksumXorWith checksums (encBlocks.map AESBlockSt.state),
   counter + 1)

/-- `compute_auth_tag(header_chunks, plaintext_checksums)`; returns the tag
and the updated cipher object (whose counter was advanced by the header
groups and finally reset to 0). -/
def computeAuthTag (c : AESBlakeSt) (headerChunks : List Bytes)
    (plaintextChecksums : List Bytes) :
    Except DriverError (List Nat) × AESBlakeSt :=
  match groupBy headerChunks c.blocksCount with
  | .error e => (.error e, c)
  | .ok groups =>
      let headerChecksums := checksumCreateMany c.blocksCount
      let (hdrChk, counter) :=
        groups.foldl (headerGroupStep c) (headerChecksums, c.block_counter)
      let blocks := createAesBlocks { c with block_counter := counter }
        plaintextChecksums .CHK
      let encBlocks := (runEncryptionRounds (c.pattern false) blocks).1
      let finalChecksum :=
        (List.zipWith (fun (b : AESBlockSt) chk =>
          List.zipWith (· ^^^ ·) b.state chk) encBlocks hdrChk).flatten
      (.ok finalChecksum, { c with block_counter := 0 })

/-- `BaseAESBlake.encrypt`; the result and the post-call object state. -/
def encrypt (c : AESBlakeSt) (plaintext header : List Nat) :
    Except DriverError (List Nat × List Nat) × AESBlakeSt :=
  match validateConvertInputs c plaintext header with
  | .error e => (.error e, c)
  | .ok (plaintextChunks, headerChunks) =>
      match groupBy plaintextChunks c.blocksCount with
      | .error e => (.error e, c)
      | .ok groups =>
          let checksums := checksumCreateMany c.blocksCount
          let (ciphertext, ptChk, counter) :=
            groups.foldl (encryptGroupStep c) ([], checksums, c.block_counter)
          match computeAuthTag { c with block_counter := counter }
              headerChunks ptChk with
          | (.error e, c') => (.error e, c')
          | (.ok tag, c') => (.ok (ciphertext, tag), c')

/-- The per-group body of the `decrypt` loop, threading
`(plaintext, checksums, counter)`. -/
def decryptGroupStep (c : AESBlakeSt) (acc : List Nat × List Bytes × Nat)
    (group : List Bytes) : List Nat × List Bytes × Nat :=
  let (plaintext, checksums, counter) := acc
  let blocks := createAesBlocks { c with block_counter := counter } group .MSG
  let decBlocks := (runDecryptionRounds (c.pattern true) blocks).1
  (plaintext ++ (decBlocks.map AESBlockSt.state).flatten,
   List.zipWith checksumXorWith checksums (decBlocks.map AESBlockSt.state),
   counter + 1)

/-- `BaseAESBlake.decrypt`; the result and the post-call object state. -/
def decrypt (c : AESBlakeSt) (ciphertext header authTag : List Nat) :
    Except DriverError (List Nat) × AESBlakeSt :=
  match validateConvertInputs c ciphertext header with
  | .error e => (.error e, c)
  | .ok (ciphertextChunks, headerChunks) =>
      match groupBy ciphertextChunks c.blocksCount with
      | .error e => (.error e, c)
      | .ok groups =>
          let checksums := checksumCreateMany c.blocksCount
          let (plaintext, ptChk, counter) :=
            groups.foldl (decryptGroupStep c) ([], checksums, c.block_counter)
          match computeAuthTag { c with block_counter := counter }
              headerChunks ptChk with
          | (.error e, c') => (.error e, c')
          | (.ok newTag, c') =>
              if newTag ≠ authTag then (.error .authFailure, c')
              else (.ok plaintext, c')

/-! ## Driver-level lemmas and the validation, counter and exchange claims -/

theorem groupBy_error_cases (d : List Bytes) (s : Nat) (e : DriverError)
    (h : groupBy d s = .error e) :
    e = .emptyData ∨ e = .sizeNotPositive ∨ e = .notDivisible := by
  unfold groupBy at h
  split at h
  · injection h with h'; exact Or.inl h'.symm
  · split at h
    · injection h with h'; exact Or.inr (Or.inl h'.symm)
    · split at h
      · injection h with h'; exact Or.inr (Or.inr h'.symm)
      · simp at h

theorem groupBy_ok (d : List Bytes) (s : Nat) (hne : d ≠ []) (hs : s ≠ 0)
    (hdvd : d.length % s = 0) : groupBy d s = .ok (chunkAux s d.length d) := by
  unfold groupBy
  simp [hne, hs, hdvd]

theorem validate_error (c : AESBlakeSt) (t h : List Nat) (e : DriverError)
    (heq : validateConvertInputs c t h = .error e) : e = .invalidInput := by
  unfold validateConvertInputs at heq
  split at heq
  · injection heq with h'; exact h'.symm
  · split at heq
    · injection heq with h'; exact h'.symm
    · simp at heq

theorem validate_error_of (c : AESBlakeSt) (t h : List Nat)
    (hbad : ¬(t.length % c.totalBytes = 0 ∧ h.length % c.totalBytes = 0)) :
    validateConvertInputs c t h = .error .invalidInput := by
  unfold validateConvertInputs
  by_cases ht : t.length % c.totalBytes = 0
  · have hh : ¬h.length % c.totalBytes = 0 := fun hh => hbad ⟨ht, hh⟩
    simp [ht, hh]
  · simp [ht]

theorem validate_ok (c : AESBlakeSt) (t h : List Nat)
    (ht : t.length % c.totalBytes = 0) (hh : h.length % c.totalBytes = 0) :
    validateConvertInputs c t h = .ok (splitBytes t 16, splitBytes h 16) := by
  unfold validateConvertInputs
  simp [ht, hh]

theorem chunkAux_length16 : ∀ (k fuel : Nat) (data : List Nat),
    data.length = 16 * k → data.length ≤ fuel → (chunkAux 16 fuel data).length = k
  | 0, fuel, data, h, hf => by
      have hnil : data = [] := List.eq_nil_of_length_eq_zero (by omega)
      subst hnil
      cases fuel <;> rfl
  | k + 1, fuel, data, h, hf => by
      have hd : data ≠ [] := by
        intro he
        subst he
        simp at h
      cases fuel with
      | zero =>
          have : 0 < data.length := List.length_pos.mpr hd
          omega
      | succ f =>
          obtain ⟨a, t, rfl⟩ := List.exists_cons_of_ne_nil hd
          have hdrop : ((a :: t).drop 16).length = 16 * k := by
            simp only [List.length_drop]
            simp only [List.length_cons] at h ⊢
            omega
          have hfd : ((a :: t).drop 16).length ≤ f := by
            simp only [List.length_drop]
            simp only [List.length_cons] at hf ⊢
            omega
          have hstep : chunkAux 16 (f + 1) (a :: t) =
              (a :: t).take 16 :: chunkAux 16 f ((a :: t).drop 16) := rfl
          rw [hstep, List.length_cons, chunkAux_length16 k f _ hdrop hfd]

theorem splitBytes_length16 (k : Nat) (data : List Nat) (h : data.length = 16 * k) :
    (splitBytes data 16).length = k :=
  chunkAux_length16 k data.length data h (Nat.le_refl _)

theorem computeAuthTag_error_cases (c : AESBlakeSt) (h p : List Bytes)
    (e : DriverError) (c' : AESBlakeSt)
    (heq : computeAuthTag c h p = (.error e, c')) :
    (e = .emptyData ∨ e = .sizeNotPositive ∨ e = .notDivisible) ∧ c' = c := by
  unfold computeAuthTag at heq
  cases hg : groupBy h c.blocksCount with
  | error e2 =>
      rw [hg] at heq
      injection heq with h1 h2
      injection h1 with h1
      subst h1
      exact ⟨groupBy_error_cases _ _ _ hg, h2.symm⟩
  | ok groups =>
      rw [hg] at heq
      simp at heq

theorem computeAuthTag_ok_counter (c : AESBlakeSt) (h p : List Bytes)
    (tag : List Nat) (c' : AESBlakeSt)
    (heq : computeAuthTag c h p = (.ok tag, c')) : c'.block_counter = 0 := by
  unfold computeAuthTag at heq
  cases hg : groupBy h c.blocksCount with
  | error e => rw [hg] at heq; simp at heq
  | ok groups =>
      rw [hg] at heq
      injection heq with h1 h2
      rw [← h2]


theorem blocksCount_pos (c : AESBlakeSt) : 0 < c.blocksCount := by
  unfold AESBlakeSt.blocksCount
  cases c.tier <;> simp [Tier.w]

theorem totalBytes_eq (c : AESBlakeSt) : c.totalBytes = c.blocksCount * 16 := rfl

theorem chunks_fit (c : AESBlakeSt) (t : List Nat) (hne : t ≠ [])
    (hmod : t.length % c.totalBytes = 0) :
    splitBytes t 16 ≠ [] ∧ (splitBytes t 16).length % c.blocksCount = 0 := by
  have hN := blocksCount_pos c
  have hT : c.totalBytes = c.blocksCount * 16 := rfl
  obtain ⟨m, hm⟩ := Nat.dvd_of_mod_eq_zero hmod
  have hlen : t.length = 16 * (c.blocksCount * m) := by rw [hm, hT]; ring
  have hsplit := splitBytes_length16 (c.blocksCount * m) t hlen
  constructor
  · intro hnil
    rw [hnil] at hsplit
    simp at hsplit
    have hpos : 0 < t.length := List.length_pos.mpr hne
    rw [hlen] at hpos
    rcases hsplit with h0 | h0
    · omega
    · subst h0
      simp at hpos
  · rw [hsplit]
    simp [Nat.mul_mod_right]

/-- C8-style: encrypt ok implies counter 0. -/
theorem encrypt_ok_counter (c : AESBlakeSt) (p h : List Nat)
    (r : List Nat × List Nat) (c' : AESBlakeSt)
    (heq : encrypt c p h = (.ok r, c')) : c'.block_counter = 0 := by
  unfold encrypt at heq
  cases hv : validateConvertInputs c p h with
  | error e => rw [hv] at heq; simp at heq
  | ok pr =>
      rw [hv] at heq
      obtain ⟨ptc, hdc⟩ := pr
      simp only at heq
      cases hg : groupBy ptc c.blocksCount with
      | error e => rw [hg] at heq; simp at heq
      | ok groups =>
          rw [hg] at heq
          simp only at heq
          cases ht : computeAuthTag
              { c with block_counter :=
                (groups.foldl (encryptGroupStep c) ([], checksumCreateMany c.blocksCount, c.block_counter)).2.2 }
              hdc (groups.foldl (encryptGroupStep c) ([], checksumCreateMany c.blocksCount, c.block_counter)).2.1 with
          | mk res c2 =>
              rw [ht] at heq
              cases res with
              | error e => simp at heq
              | ok tag =>
                  injection heq with h1 h2
                  subst h2
                  exact computeAuthTag_ok_counter _ _ _ _ _ ht

theorem decrypt_counter_cases (c : AESBlakeSt) (ct h tag : List Nat)
    (res : Except DriverError (List Nat)) (c' : AESBlakeSt)
    (heq : decrypt c ct h tag = (res, c')) :
    (∀ pt, res = .ok pt → c'.block_counter = 0) ∧
      (res = .error .authFailure → c'.block_counter = 0) := by
  unfold decrypt at heq
  cases hv : validateConvertInputs c ct h with
  | error e =>
      rw [hv] at heq
      injection heq with h1 h2
      subst h1
      have := validate_error _ _ _ _ hv
      subst this
      exact ⟨fun pt hpt => by simp at hpt, fun haf => by simp at haf⟩
  | ok pr =>
      rw [hv] at heq
      obtain ⟨ctc, hdc⟩ := pr
      simp only at heq
      cases hg : groupBy ctc c.blocksCount with
      | error e =>
          rw [hg] at heq
          injection heq with h1 h2
          subst h1
          rcases groupBy_error_cases _ _ _ hg with h3 | h3 | h3 <;> subst h3 <;>
            exact ⟨fun pt hpt => by simp at hpt, fun haf => by simp at haf⟩
      | ok groups =>
          rw [hg] at heq
          simp only at heq
          generalize hacc : groups.foldl (decryptGroupStep c)
            ([], checksumCreateMany c.blocksCount, c.block_counter) = acc at heq
          obtain ⟨pt0, chk0, ctr0⟩ := acc
          simp only at heq
          cases hcat : computeAuthTag { c with block_counter := ctr0 } hdc chk0 with
          | mk res2 c2 =>
              rw [hcat] at heq
              cases res2 with
              | error e =>
                  simp only at heq
                  injection heq with h1 h2
                  subst h1
                  obtain ⟨hcases, -⟩ := computeAuthTag_error_cases _ _ _ _ _ hcat
                  rcases hcases with h3 | h3 | h3 <;> subst h3 <;>
                    exact ⟨fun pt hpt => by simp at hpt, fun haf => by simp at haf⟩
              | ok newTag =>
                  simp only at heq
                  have hc0 : c2.block_counter = 0 :=
                    computeAuthTag_ok_counter _ _ _ _ _ hcat
                  by_cases htag : newTag ≠ tag
                  · rw [if_pos htag] at heq
                    injection heq with h1 h2
                    subst h2
                    exact ⟨fun pt hpt => by rw [← h1] at hpt; simp at hpt,
                           fun _ => hc0⟩
                  · rw [if_neg htag] at heq
                    injection heq with h1 h2
                    subst h2
                    exact ⟨fun pt hpt => hc0, fun haf => by rw [← h1] at haf; simp at haf⟩

theorem computeAuthTag_ok_of (c : AESBlakeSt) (h p : List Bytes)
    (hne : h ≠ []) (hmod : h.length % c.blocksCount = 0) :
    ∃ tag c', computeAuthTag c h p = (.ok tag, c') := by
  unfold computeAuthTag
  rw [groupBy_ok h c.blocksCount hne (by have := blocksCount_pos c; omega) hmod]
  exact ⟨_, _, rfl⟩

theorem encrypt_ok_of (c : AESBlakeSt) (p h : List Nat)
    (hpm : p.length % c.totalBytes = 0) (hhm : h.length % c.totalBytes = 0)
    (hpne : p ≠ []) (hhne : h ≠ []) :
    ∃ r c', encrypt c p h = (.ok r, c') := by
  unfold encrypt
  rw [validate_ok c p h hpm hhm]
  dsimp only
  obtain ⟨hne1, hdvd1⟩ := chunks_fit c p hpne hpm
  obtain ⟨hne2, hdvd2⟩ := chunks_fit c h hhne hhm
  rw [groupBy_ok _ _ hne1 (by have := blocksCount_pos c; omega) hdvd1]
  dsimp only
  obtain ⟨tag, c', hct⟩ := computeAuthTag_ok_of
    { c with block_counter := ((chunkAux c.blocksCount (splitBytes p 16).length (splitBytes p 16)).foldl
        (encryptGroupStep c) ([], checksumCreateMany c.blocksCount, c.block_counter)).2.2 }
    (splitBytes h 16)
    ((chunkAux c.blocksCount (splitBytes p 16).length (splitBytes p 16)).foldl (encryptGroupStep c)
      ([], checksumCreateMany c.blocksCount, c.block_counter)).2.1 hne2 hdvd2
  rw [hct]
  exact ⟨_, _, rfl⟩

theorem decrypt_ok_or_auth (c : AESBlakeSt) (ct h tag : List Nat)
    (hpm : ct.length % c.totalBytes = 0) (hhm : h.length % c.totalBytes = 0)
    (hpne : ct ≠ []) (hhne : h ≠ []) :
    (∃ pt c', decrypt c ct h tag = (.ok pt, c')) ∨
      (∃ c', decrypt c ct h tag = (.error .authFailure, c')) := by
  unfold decrypt
  rw [validate_ok c ct h hpm hhm]
  dsimp only
  obtain ⟨hne1, hdvd1⟩ := chunks_fit c ct hpne hpm
  obtain ⟨hne2, hdvd2⟩ := chunks_fit c h hhne hhm
  rw [groupBy_ok _ _ hne1 (by have := blocksCount_pos c; omega) hdvd1]
  dsimp only
  obtain ⟨tag2, c', hct⟩ := computeAuthTag_ok_of
    { c with block_counter := ((chunkAux c.blocksCount (splitBytes ct 16).length (splitBytes ct 16)).foldl
        (decryptGroupStep c) ([], checksumCreateMany c.blocksCount, c.block_counter)).2.2 }
    (splitBytes h 16)
    ((chunkAux c.blocksCount (splitBytes ct 16).length (splitBytes ct 16)).foldl (decryptGroupStep c)
      ([], checksumCreateMany c.blocksCount, c.block_counter)).2.1 hne2 hdvd2
  rw [hct]
  dsimp only
  by_cases htag : tag2 ≠ tag
  · right
    rw [if_pos htag]
    exact ⟨_, rfl⟩
  · left
    rw [if_neg htag]
    exact ⟨_, _, rfl⟩

theorem encrypt_invalidInput_iff (c : AESBlakeSt) (p h : List Nat) :
    (∃ c', encrypt c p h = (.error .invalidInput, c')) ↔
      ¬(p.length % c.totalBytes = 0 ∧ h.length % c.totalBytes = 0) := by
  constructor
  · rintro ⟨c', heq⟩ hmods
    obtain ⟨hpm, hhm⟩ := hmods
    unfold encrypt at heq
    rw [validate_ok c p h hpm hhm] at heq
    simp only at heq
    cases hg : groupBy (splitBytes p 16) c.blocksCount with
    | error e =>
        rw [hg] at heq
        injection heq with h1 h2
        rcases groupBy_error_cases _ _ _ hg with h3 | h3 | h3 <;> subst h3 <;> simp at h1
    | ok groups =>
        rw [hg] at heq
        simp only at heq
        cases hcat : computeAuthTag { c with block_counter :=
            (groups.foldl (encryptGroupStep c)
              ([], checksumCreateMany c.blocksCount, c.block_counter)).2.2 }
            (splitBytes h 16)
            (groups.foldl (encryptGroupStep c)
              ([], checksumCreateMany c.blocksCount, c.block_counter)).2.1 with
        | mk res2 c2 =>
            rw [hcat] at heq
            cases res2 with
            | error e =>
                simp only at heq
                injection heq with h1 h2
                obtain ⟨hcases, -⟩ := computeAuthTag_error_cases _ _ _ _ _ hcat
                rcases hcases with h3 | h3 | h3 <;> subst h3 <;> simp at h1
            | ok tag => simp at heq
  · intro hbad
    refine ⟨c, ?_⟩
    unfold encrypt
    rw [validate_error_of c p h hbad]


theorem decrypt_invalidInput_iff (c : AESBlakeSt) (ct h tag : List Nat) :
    (∃ c', decrypt c ct h tag = (.error .invalidInput, c')) ↔
      ¬(ct.length % c.totalBytes = 0 ∧ h.length % c.totalBytes = 0) := by
  constructor
  · rintro ⟨c', heq⟩ hmods
    obtain ⟨hpm, hhm⟩ := hmods
    have := (decrypt_counter_cases c ct h tag _ _ heq)
    unfold decrypt at heq
    rw [validate_ok c ct h hpm hhm] at heq
    simp only at heq
    cases hg : groupBy (splitBytes ct 16) c.blocksCount with
    | error e =>
        rw [hg] at heq
        injection heq with h1 h2
        rcases groupBy_error_cases _ _ _ hg with h3 | h3 | h3 <;> subst h3 <;> simp at h1
    | ok groups =>
        rw [hg] at heq
        simp only at heq
        generalize hacc : groups.foldl (decryptGroupStep c)
          ([], checksumCreateMany c.blocksCount, c.block_counter) = acc at heq
        obtain ⟨pt0, chk0, ctr0⟩ := acc
        simp only at heq
        cases hcat : computeAuthTag { c with block_counter := ctr0 } (splitBytes h 16) chk0 with
        | mk res2 c2 =>
            rw [hcat] at heq
            cases res2 with
            | error e =>
                simp only at heq
                injection heq with h1 h2
                obtain ⟨hcases, -⟩ := computeAuthTag_error_cases _ _ _ _ _ hcat
                rcases hcases with h3 | h3 | h3 <;> subst h3 <;> simp at h1
            | ok newTag =>
                simp only at heq
                by_cases htag : newTag ≠ tag
                · rw [if_pos htag] at heq
                  injection heq with h1 h2
                  simp at h1
                · rw [if_neg htag] at heq
                  injection heq with h1 h2
                  simp at h1
  · intro hbad
    refine ⟨c, ?_⟩
    unfold decrypt
    rw [validate_error_of c ct h hbad]

/-- C2 (amended). -/
theorem input_validation_amended :
    (∀ c : AESBlakeSt, ∀ p h : List Nat,
      (∃ c', encrypt c p h = (.error .invalidInput, c')) ↔
        ¬(p.length % c.totalBytes = 0 ∧ h.length % c.totalBytes = 0)) ∧
    (∀ c : AESBlakeSt, ∀ ct h tag : List Nat,
      (∃ c', decrypt c ct h tag = (.error .invalidInput, c')) ↔
        ¬(ct.length % c.totalBytes = 0 ∧ h.length % c.totalBytes = 0)) ∧
    (∀ c : AESBlakeSt, ∀ p h : List Nat,
      p.length % c.totalBytes = 0 → h.length % c.totalBytes = 0 →
      p ≠ [] → h ≠ [] → ∃ r c', encrypt c p h = (.ok r, c')) ∧
    (∀ c : AESBlakeSt, ∀ ct h tag : List Nat,
      ct.length % c.totalBytes = 0 → h.length % c.totalBytes = 0 →
      ct ≠ [] → h ≠ [] →
      (∃ pt c', decrypt c ct h tag = (.ok pt, c')) ∨
        (∃ c', decrypt c ct h tag = (.error .authFailure, c'))) :=
  ⟨encrypt_invalidInput_iff, decrypt_invalidInput_iff, encrypt_ok_of, decrypt_ok_or_auth⟩

def wC : AESBlakeSt := mkCipher .t32 [] [] []

def wP : List Nat := List.replicate 32 0

/-- The ciphertext `encrypt wC wP wP` produces (checked by
`counter_reset_witness`'s `rfl`, which evaluates the call). -/
def wCT : List Nat :=
  [55, 73, 177, 157, 51, 180, 111, 104, 213, 224, 29, 167, 230, 128, 26, 122,
   62, 249, 172, 2, 169, 34, 49, 235, 58, 213, 155, 97, 255, 1, 35, 40]

/-- The auth tag `encrypt wC wP wP` produces. -/
def wTag : List Nat :=
  [192, 153, 182, 107, 130, 7, 254, 231, 238, 157, 93, 71, 187, 136, 161, 85,
   16, 180, 38, 147, 72, 245, 211, 200, 251, 165, 210, 52, 183, 124, 4, 209]

/-- C2 counterexample: both lengths are 0, a multiple of every tier size,
yet `encrypt` raises `group_by`'s empty-data error. -/
theorem input_validation_counterexample :
    (List.length ([] : List Nat)) % wC.totalBytes = 0 ∧
      encrypt wC [] [] = (.error .emptyData, wC) := ⟨rfl, rfl⟩

theorem input_validation_witness :
    (∃ r c', encrypt wC wP wP = (.ok r, c')) ∧
      ((∃ c', encrypt wC wP [0] = (.error .invalidInput, c')) ↔
        ¬((wP.length % wC.totalBytes = 0) ∧ ([0].length % wC.totalBytes = 0))) :=
  ⟨input_validation_amended.2.2.1 wC wP wP rfl rfl (by simp [wP]) (by simp [wP]),
   input_validation_amended.1 wC wP [0]⟩

/-- C8. -/
theorem counter_reset_after_ops :
    (∀ (c : AESBlakeSt) (p h : List Nat) r c',
      encrypt c p h = (.ok r, c') → c'.block_counter = 0) ∧
    (∀ (c : AESBlakeSt) (ct h tag : List Nat) pt c',
      decrypt c ct h tag = (.ok pt, c') → c'.block_counter = 0) :=
  ⟨encrypt_ok_counter,
   fun c ct h tag pt c' heq => (decrypt_counter_cases c ct h tag _ _ heq).1 pt rfl⟩

theorem counter_reset_witness :
    (encrypt wC wP wP).2.block_counter = 0 ∧
      (decrypt wC wCT wP wTag).2.block_counter = 0 :=
  ⟨counter_reset_after_ops.1 wC wP wP (wCT, wTag) ⟨wC.tier, wC.keygen, 0⟩ (by rfl),
   counter_reset_after_ops.2 wC wCT wP wTag wP ⟨wC.tier, wC.keygen, 0⟩ (by rfl)⟩

/-- C10. -/
theorem auth_failure_counter_reset (c : AESBlakeSt) (ct h tag : List Nat)
    (c' : AESBlakeSt) (heq : decrypt c ct h tag = (.error .authFailure, c')) :
    c'.block_counter = 0 :=
  (decrypt_counter_cases c ct h tag _ _ heq).2 rfl

theorem auth_failure_counter_reset_witness :
    (decrypt wC wCT wP (List.replicate 32 1)).2.block_counter = 0 :=
  auth_failure_counter_reset wC wCT wP (List.replicate 32 1)
    ⟨wC.tier, wC.keygen, 0⟩ (by rfl)

/-- C7. -/
theorem exchange_columns_involution :
    (∀ b1 b2 : AESBlockSt, b1.state.length = 16 → b2.state.length = 16 →
      exchangeColumnsB (exColsPattern256 true)
        (exchangeColumnsB (exColsPattern256 false) [b1, b2]) = [b1, b2]) ∧
    (∀ b1 b2 b3 b4 : AESBlockSt,
      b1.state.length = 16 → b2.state.length = 16 →
      b3.state.length = 16 → b4.state.length = 16 →
      exchangeColumnsB (exColsPattern512 true)
        (exchangeColumnsB (exColsPattern512 false) [b1, b2, b3, b4]) =
          [b1, b2, b3, b4]) := by
  constructor
  · intro b1 b2 h1 h2
    obtain ⟨blk1, rk1⟩ := b1
    obtain ⟨blk2, rk2⟩ := b2
    simp only at h1 h2
    obtain ⟨a0,a1,a2,a3,a4,a5,a6,a7,a8,a9,a10,a11,a12,a13,a14,a15, rfl⟩ := exists16 blk1 h1
    obtain ⟨c0,c1,c2,c3,c4,c5,c6,c7,c8,c9,c10,c11,c12,c13,c14,c15, rfl⟩ := exists16 blk2 h2
    rfl
  · intro b1 b2 b3 b4 h1 h2 h3 h4
    obtain ⟨blk1, rk1⟩ := b1
    obtain ⟨blk2, rk2⟩ := b2
    obtain ⟨blk3, rk3⟩ := b3
    obtain ⟨blk4, rk4⟩ := b4
    simp only at h1 h2 h3 h4
    obtain ⟨a0,a1,a2,a3,a4,a5,a6,a7,a8,a9,a10,a11,a12,a13,a14,a15, rfl⟩ := exists16 blk1 h1
    obtain ⟨c0,c1,c2,c3,c4,c5,c6,c7,c8,c9,c10,c11,c12,c13,c14,c15, rfl⟩ := exists16 blk2 h2
    obtain ⟨d0,d1,d2,d3,d4,d5,d6,d7,d8,d9,d10,d11,d12,d13,d14,d15, rfl⟩ := exists16 blk3 h3
    obtain ⟨e0,e1,e2,e3,e4,e5,e6,e7,e8,e9,e10,e11,e12,e13,e14,e15, rfl⟩ := exists16 blk4 h4
    rfl

def wBlk (v : Nat) : AESBlockSt := ⟨(List.range 16).map (fun i => v + i), []⟩

theorem exchange_columns_involution_witness :
    exchangeColumnsB (exColsPattern256 true)
      (exchangeColumnsB (exColsPattern256 false) [wBlk 0, wBlk 16]) = [wBlk 0, wBlk 16] ∧
    exchangeColumnsB (exColsPattern512 true)
      (exchangeColumnsB (exColsPattern512 false) [wBlk 0, wBlk 16, wBlk 32, wBlk 48]) =
        [wBlk 0, wBlk 16, wBlk 32, wBlk 48] :=
  ⟨exchange_columns_involution.1 (wBlk 0) (wBlk 16) rfl rfl,
   exchange_columns_involution.2 (wBlk 0) (wBlk 16) (wBlk 32) (wBlk 48) rfl rfl rfl rfl⟩

/-- C9. -/
theorem derive_keys_pure (kg : BlakeKeygen) (keyCount blockCounter : Nat)
    (domain : KDFDomain) : (deriveKeysSt kg keyCount blockCounter domain).2 = kg := rfl

/-! ## The cooperative-round schedule: loop unfolding and the exchange-count claim -/

/-- The straight-line unfolding of the encryption drive up to and
including `add_round_key(10)` (the nine cross-lane exchanges before the
intermediate rounds are inside). -/
def encPostArk10 (pat : List (List Nat)) (blocks : List AESBlockSt) : List AESBlockSt :=
  let s := exchangeColumnsB pat (blocks.map (AESBlockSt.addRoundKey 0))
  let s := exchangeColumnsB pat (s.map (encRoundBody 1))
  let s := exchangeColumnsB pat (s.map (encRoundBody 2))
  let s := exchangeColumnsB pat (s.map (encRoundBody 3))
  let s := exchangeColumnsB pat (s.map (encRoundBody 4))
  let s := exchangeColumnsB pat (s.map (encRoundBody 5))
  let s := exchangeColumnsB pat (s.map (encRoundBody 6))
  let s := exchangeColumnsB pat (s.map (encRoundBody 7))
  let s := exchangeColumnsB pat (s.map (encRoundBody 8))
  s.map (fun b => encFinalPart (encRoundBody 9 b))

theorem getLastD_map_true {α : Type} (l : List α) (hne : l ≠ []) :
    (l.map (fun _ => true)).getLastD false = true := by
  induction l with
  | nil => exact absurd rfl hne
  | cons a t ih =>
      cases t with
      | nil => rfl
      | cons b u => simpa using ih (by simp)

theorem length_exchangeStates (pat : List (List Nat)) (states : List Bytes) :
    (exchangeStates pat states).length = states.length := by
  simp [exchangeStates]

theorem length_exchangeColumnsB (pat : List (List Nat)) (bs : List AESBlockSt) :
    (exchangeColumnsB pat bs).length = bs.length := by
  simp [exchangeColumnsB, length_exchangeStates]

theorem zipWith_preserves {α β : Type} {P : α → Prop} (f : α → β → α)
    (hf : ∀ a b, P a → P (f a b)) :
    ∀ (l1 : List α) (l2 : List β), (∀ a ∈ l1, P a) →
      ∀ x ∈ List.zipWith f l1 l2, P x := by
  intro l1
  induction l1 with
  | nil => intro l2 h x hx; simp at hx
  | cons a t ih =>
      intro l2 h x hx
      cases l2 with
      | nil => simp at hx
      | cons b u =>
          simp only [List.zipWith_cons_cons, List.mem_cons] at hx
          rcases hx with rfl | hx
          · exact hf a b (h a (List.mem_cons_self a t))
          · exact ih u (fun y hy => h y (List.mem_cons_of_mem a hy)) x hx

theorem exchangeColumnsB_keys (pat : List (List Nat)) (bs : List AESBlockSt)
    (h : ∀ b ∈ bs, b.round_keys.length = 11) :
    ∀ b ∈ exchangeColumnsB pat bs, b.round_keys.length = 11 := by
  intro b hb
  unfold exchangeColumnsB at hb
  exact zipWith_preserves (P := fun b => b.round_keys.length = 11)
    (fun b s => { b with state := s }) (fun a s ha => ha) bs
    (exchangeStates pat (bs.map AESBlockSt.state)) h b hb

theorem exchangeGens_map (pat : List (List Nat)) (blocks : List AESBlockSt) (p : Nat) :
    exchangeGens pat (blocks.map (fun b => AESGen.mk b p)) =
      (exchangeColumnsB pat blocks).map (fun b => AESGen.mk b p) := by
  unfold exchangeGens exchangeColumnsB
  rw [List.map_map]
  have h1 : (fun (g : AESGen) => g.blk.state) ∘ (fun b => AESGen.mk b p) =
      AESBlockSt.state := rfl
  rw [h1, List.zipWith_map_left, List.map_zipWith]


theorem encNext_pc0 (b : AESBlockSt) :
    encNext ⟨b, 0⟩ = (some true, ⟨b.addRoundKey 0, 1⟩) := rfl

theorem encNext_mid (b : AESBlockSt) (p : Nat) (hk : b.round_keys.length = 11)
    (hp1 : 1 ≤ p) (hp8 : p ≤ 8) :
    encNext ⟨b, p⟩ = (some true, ⟨encRoundBody p b, p + 1⟩) := by
  have hn : b.nRounds = 10 := by simp [AESBlockSt.nRounds, hk]
  simp only [encNext, hn]
  rw [if_neg (show ¬(p = 0) by omega), if_pos (show p ≤ 10 - 2 by omega)]

theorem encNext_last (b : AESBlockSt) (hk : b.round_keys.length = 11) :
    encNext ⟨b, 9⟩ = (some false, ⟨encFinalPart (encRoundBody 9 b), 10⟩) := by
  have hn : b.nRounds = 10 := by simp [AESBlockSt.nRounds, hk]
  simp only [encNext, hn]
  rw [if_neg (show ¬((9 : Nat) = 0) by omega), if_neg (show ¬((9 : Nat) ≤ 10 - 2) by omega)]
  simp

theorem runEncLoop_step (pat : List (List Nat)) (fuel : Nat) (blocks : List AESBlockSt)
    (p : Nat) (stepf : AESBlockSt → AESBlockSt) (hne : blocks ≠ [])
    (hstep : ∀ b ∈ blocks, encNext ⟨b, p⟩ = (some true, ⟨stepf b, p + 1⟩)) :
    runEncLoop pat (fuel + 1) (blocks.map (fun b => AESGen.mk b p)) =
      ((runEncLoop pat fuel
          ((exchangeColumnsB pat (blocks.map stepf)).map (fun b => AESGen.mk b (p + 1)))).1,
       (runEncLoop pat fuel
          ((exchangeColumnsB pat (blocks.map stepf)).map (fun b => AESGen.mk b (p + 1)))).2 + 1) := by
  rw [runEncLoop]
  have hmap : (blocks.map (fun b => AESGen.mk b p)).map encNext =
      blocks.map (fun b => (some true, AESGen.mk (stepf b) (p + 1))) := by
    rw [List.map_map]
    exact List.map_congr_left (fun b hb => hstep b hb)
  rw [hmap]
  have hkeep : ((blocks.map (fun b => (some true, AESGen.mk (stepf b) (p + 1)))).map
      (fun r => r.1.getD false)).getLastD false = true := by
    rw [List.map_map]
    have : ((fun (r : Option Bool × AESGen) => r.1.getD false) ∘
        (fun b => ((some true, AESGen.mk (stepf b) (p + 1)) : Option Bool × AESGen))) =
        (fun _ => true) := rfl
    rw [this]
    exact getLastD_map_true blocks hne
  rw [hkeep]
  have hsnd : (blocks.map (fun b => ((some true, AESGen.mk (stepf b) (p + 1)) :
      Option Bool × AESGen))).map Prod.snd = (blocks.map stepf).map (fun b => AESGen.mk b (p + 1)) := by
    simp [List.map_map]
  rw [hsnd, exchangeGens_map]
  rcases hres : runEncLoop pat fuel
      ((exchangeColumnsB pat (blocks.map stepf)).map (fun b => AESGen.mk b (p + 1))) with ⟨res, cnt⟩
  simp [hres]

theorem getLastD_map_false {α : Type} (l : List α) :
    (l.map (fun _ => false)).getLastD false = false := by
  induction l with
  | nil => rfl
  | cons a t ih =>
      cases t with
      | nil => rfl
      | cons b u => simpa using ih

theorem runEncLoop_last (pat : List (List Nat)) (fuel : Nat) (blocks : List AESBlockSt)
    (hk : ∀ b ∈ blocks, b.round_keys.length = 11) :
    runEncLoop pat (fuel + 1) (blocks.map (fun b => AESGen.mk b 9)) =
      ((exchangeColumnsB pat (blocks.map (fun b => encFinalPart (encRoundBody 9 b)))).map
        (fun b => AESGen.mk b 10), 1) := by
  rw [runEncLoop]
  have hmap : (blocks.map (fun b => AESGen.mk b 9)).map encNext =
      blocks.map (fun b => (some false, AESGen.mk (encFinalPart (encRoundBody 9 b)) 10)) := by
    rw [List.map_map]
    exact List.map_congr_left (fun b hb => encNext_last b (hk b hb))
  rw [hmap]
  have hkeep : ((blocks.map (fun b => ((some false,
      AESGen.mk (encFinalPart (encRoundBody 9 b)) 10) : Option Bool × AESGen))).map
      (fun r => r.1.getD false)).getLastD false = false := by
    rw [List.map_map]
    exact getLastD_map_false blocks
  rw [hkeep]
  have hsnd : (blocks.map (fun b => ((some false,
      AESGen.mk (encFinalPart (encRoundBody 9 b)) 10) : Option Bool × AESGen))).map Prod.snd =
      (blocks.map (fun b => encFinalPart (encRoundBody 9 b))).map (fun b => AESGen.mk b 10) := by
    simp [List.map_map]
  rw [hsnd, exchangeGens_map]
  simp


theorem stepInv (pat : List (List Nat)) (bs : List AESBlockSt)
    (f : AESBlockSt → AESBlockSt) (hf : ∀ b, (f b).round_keys = b.round_keys)
    (hne : bs ≠ []) (hk : ∀ b ∈ bs, b.round_keys.length = 11) :
    exchangeColumnsB pat (bs.map f) ≠ [] ∧
      (∀ b ∈ exchangeColumnsB pat (bs.map f), b.round_keys.length = 11) := by
  constructor
  · intro hnil
    have := length_exchangeColumnsB pat (bs.map f)
    rw [hnil] at this
    simp at this
    exact hne (List.eq_nil_of_length_eq_zero this.symm)
  · apply exchangeColumnsB_keys
    intro b hb
    obtain ⟨a, ha, rfl⟩ := List.mem_map.mp hb
    rw [hf a]
    exact hk a ha

theorem runEncLoop_full (pat : List (List Nat)) (fuel : Nat) (blocks : List AESBlockSt)
    (hne : blocks ≠ []) (hk : ∀ b ∈ blocks, b.round_keys.length = 11) :
    runEncLoop pat (fuel + 10) (blocks.map (fun b => AESGen.mk b 0)) =
      ((exchangeColumnsB pat (encPostArk10 pat blocks)).map (fun b => AESGen.mk b 10), 10) := by
  obtain ⟨hne1, hk1⟩ := stepInv pat blocks (AESBlockSt.addRoundKey 0) (fun b => rfl) hne hk
  set s1 := exchangeColumnsB pat (blocks.map (AESBlockSt.addRoundKey 0)) with hs1
  obtain ⟨hne2, hk2⟩ := stepInv pat s1 (encRoundBody 1) (fun b => rfl) hne1 hk1
  set s2 := exchangeColumnsB pat (s1.map (encRoundBody 1)) with hs2
  obtain ⟨hne3, hk3⟩ := stepInv pat s2 (encRoundBody 2) (fun b => rfl) hne2 hk2
  set s3 := exchangeColumnsB pat (s2.map (encRoundBody 2)) with hs3
  obtain ⟨hne4, hk4⟩ := stepInv pat s3 (encRoundBody 3) (fun b => rfl) hne3 hk3
  set s4 := exchangeColumnsB pat (s3.map (encRoundBody 3)) with hs4
  obtain ⟨hne5, hk5⟩ := stepInv pat s4 (encRoundBody 4) (fun b => rfl) hne4 hk4
  set s5 := exchangeColumnsB pat (s4.map (encRoundBody 4)) with hs5
  obtain ⟨hne6, hk6⟩ := stepInv pat s5 (encRoundBody 5) (fun b => rfl) hne5 hk5
  set s6 := exchangeColumnsB pat (s5.map (encRoundBody 5)) with hs6
  obtain ⟨hne7, hk7⟩ := stepInv pat s6 (encRoundBody 6) (fun b => rfl) hne6 hk6
  set s7 := exchangeColumnsB pat (s6.map (encRoundBody 6)) with hs7
  obtain ⟨hne8, hk8⟩ := stepInv pat s7 (encRoundBody 7) (fun b => rfl) hne7 hk7
  set s8 := exchangeColumnsB pat (s7.map (encRoundBody 7)) with hs8
  obtain ⟨hne9, hk9⟩ := stepInv pat s8 (encRoundBody 8) (fun b => rfl) hne8 hk8
  set s9 := exchangeColumnsB pat (s8.map (encRoundBody 8)) with hs9
  have e0 : fuel + 10 = (fuel + 9) + 1 := rfl
  rw [e0, runEncLoop_step pat (fuel + 9) blocks 0 (AESBlockSt.addRoundKey 0) hne
    (fun b _ => encNext_pc0 b)]
  rw [show fuel + 9 = (fuel + 8) + 1 from rfl,
    runEncLoop_step pat (fuel + 8) s1 1 (encRoundBody 1) hne1
      (fun b hb => encNext_mid b 1 (hk1 b hb) (by omega) (by omega))]
  rw [show fuel + 8 = (fuel + 7) + 1 from rfl,
    runEncLoop_step pat (fuel + 7) s2 2 (encRoundBody 2) hne2
      (fun b hb => encNext_mid b 2 (hk2 b hb) (by omega) (by omega))]
  rw [show fuel + 7 = (fuel + 6) + 1 from rfl,
    runEncLoop_step pat (fuel + 6) s3 3 (encRoundBody 3) hne3
      (fun b hb => encNext_mid b 3 (hk3 b hb) (by omega) (by omega))]
  rw [show fuel + 6 = (fuel + 5) + 1 from rfl,
    runEncLoop_step pat (fuel + 5) s4 4 (encRoundBody 4) hne4
      (fun b hb => encNext_mid b 4 (hk4 b hb) (by omega) (by omega))]
  rw [show fuel + 5 = (fuel + 4) + 1 from rfl,
    runEncLoop_step pat (fuel + 4) s5 5 (encRoundBody 5) hne5
      (fun b hb => encNext_mid b 5 (hk5 b hb) (by omega) (by omega))]
  rw [show fuel + 4 = (fuel + 3) + 1 from rfl,
    runEncLoop_step pat (fuel + 3) s6 6 (encRoundBody 6) hne6
      (fun b hb => encNext_mid b 6 (hk6 b hb) (by omega) (by omega))]
  rw [show fuel + 3 = (fuel + 2) + 1 from rfl,
    runEncLoop_step pat (fuel + 2) s7 7 (encRoundBody 7) hne7
      (fun b hb => encNext_mid b 7 (hk7 b hb) (by omega) (by omega))]
  rw [show fuel + 2 = (fuel + 1) + 1 from rfl,
    runEncLoop_step pat (fuel + 1) s8 8 (encRoundBody 8) hne8
      (fun b hb => encNext_mid b 8 (hk8 b hb) (by omega) (by omega))]
  rw [runEncLoop_last pat fuel s9 hk9]
  simp only [encPostArk10, ← hs1, ← hs2, ← hs3, ← hs4, ← hs5, ← hs6, ← hs7, ← hs8, ← hs9]

theorem runEncryptionRounds_spec (pat : List (List Nat)) (blocks : List AESBlockSt)
    (hne : blocks ≠ []) (hk : ∀ b ∈ blocks, b.round_keys.length = 11) :
    runEncryptionRounds pat blocks =
      (exchangeColumnsB pat (encPostArk10 pat blocks), 10) := by
  unfold runEncryptionRounds
  dsimp only
  have hfuel : ∃ f, loopFuel blocks = f + 10 := by
    obtain ⟨a, t, rfl⟩ := List.exists_cons_of_ne_nil hne
    unfold loopFuel
    simp only [List.map_cons, List.foldr_cons]
    have hak : a.round_keys.length = 11 := hk a (List.mem_cons_self a t)
    have : 11 ≤ max a.round_keys.length ((t.map (fun b => b.round_keys.length)).foldr max 0) := by
      rw [hak]
      exact Nat.le_max_left _ _
    exact ⟨max a.round_keys.length ((t.map (fun b => b.round_keys.length)).foldr max 0) + 2 - 10,
      by omega⟩
  obtain ⟨f, hf⟩ := hfuel
  rw [hf, runEncLoop_full pat f blocks hne hk]
  simp [List.map_map]
  have : (AESGen.blk ∘ fun b => AESGen.mk b 10) = id := rfl
  rw [this, List.map_id]


/-- C3 (amended). -/
theorem exchange_schedule_amended (pat : List (List Nat)) (blocks : List AESBlockSt)
    (hne : blocks ≠ []) (hk : ∀ b ∈ blocks, b.round_keys.length = 11) :
    runEncryptionRounds pat blocks =
      (exchangeColumnsB pat (encPostArk10 pat blocks), 10) :=
  runEncryptionRounds_spec pat blocks hne hk

def cBlk1 : AESBlockSt := ⟨List.range 16, List.replicate 11 (List.replicate 16 0)⟩

def cBlk2 : AESBlockSt := ⟨(List.range 16).map (· + 16), List.replicate 11 (List.replicate 16 0)⟩

/-- C3 counterexample. -/
theorem exchange_schedule_counterexample :
    (runEncryptionRounds (exColsPattern256 false) [cBlk1, cBlk2]).2 ≠ 9 ∧
      (runEncryptionRounds (exColsPattern256 false) [cBlk1, cBlk2]).1 ≠
        encPostArk10 (exColsPattern256 false) [cBlk1, cBlk2] := by
  constructor
  · decide
  · decide

theorem exchange_schedule_witness :
    runEncryptionRounds (exColsPattern256 false) [cBlk1, cBlk2] =
      (exchangeColumnsB (exColsPattern256 false)
        (encPostArk10 (exColsPattern256 false) [cBlk1, cBlk2]), 10) :=
  exchange_schedule_amended (exColsPattern256 false) [cBlk1, cBlk2] (by simp)
    (by
      intro b hb
      simp only [List.mem_cons, List.not_mem_nil, or_false] at hb
      rcases hb with rfl | rfl <;> rfl)


/-- The straight-line unfolding of the decryption drive. -/
def decRoundsSpec (pat : List (List Nat)) (blocks : List AESBlockSt) : List AESBlockSt :=
  let s := (exchangeColumnsB pat blocks).map (fun b => decRoundBody 9 (decPrologue b))
  let s := (exchangeColumnsB pat s).map (decRoundBody 8)
  let s := (exchangeColumnsB pat s).map (decRoundBody 7)
  let s := (exchangeColumnsB pat s).map (decRoundBody 6)
  let s := (exchangeColumnsB pat s).map (decRoundBody 5)
  let s := (exchangeColumnsB pat s).map (decRoundBody 4)
  let s := (exchangeColumnsB pat s).map (decRoundBody 3)
  let s := (exchangeColumnsB pat s).map (decRoundBody 2)
  let s := (exchangeColumnsB pat s).map (decRoundBody 1)
  (exchangeColumnsB pat s).map (AESBlockSt.addRoundKey 0)

theorem decNext_pc0 (b : AESBlockSt) (hk : b.round_keys.length = 11) :
    decNext ⟨b, 0⟩ = (some true, ⟨decRoundBody 9 (decPrologue b), 1⟩) := by
  have hn : b.nRounds = 10 := by simp [AESBlockSt.nRounds, hk]
  simp only [decNext, hn]
  have hpro : decPrologue b = ((b.addRoundKey b.nRounds).invShiftRows).invSubBytes := rfl
  simp [decPrologue, hn]

theorem decNext_mid (b : AESBlockSt) (p : Nat) (hk : b.round_keys.length = 11)
    (hp1 : 1 ≤ p) (hp8 : p ≤ 8) :
    decNext ⟨b, p⟩ = (some true, ⟨decRoundBody (9 - p) b, p + 1⟩) := by
  have hn : b.nRounds = 10 := by simp [AESBlockSt.nRounds, hk]
  simp only [decNext, hn]
  rw [if_neg (show ¬(p = 0) by omega), if_pos (show p ≤ 10 - 2 by omega)]

theorem decNext_last (b : AESBlockSt) (hk : b.round_keys.length = 11) :
    decNext ⟨b, 9⟩ = (some false, ⟨b.addRoundKey 0, 10⟩) := by
  have hn : b.nRounds = 10 := by simp [AESBlockSt.nRounds, hk]
  simp only [decNext, hn]
  rw [if_neg (show ¬((9 : Nat) = 0) by omega), if_neg (show ¬((9 : Nat) ≤ 10 - 2) by omega)]
  simp

theorem runDecLoop_step (pat : List (List Nat)) (fuel : Nat) (blocks : List AESBlockSt)
    (p : Nat) (stepf : AESBlockSt → AESBlockSt) (hne : blocks ≠ [])
    (hstep : ∀ b ∈ exchangeColumnsB pat blocks,
      decNext ⟨b, p⟩ = (some true, ⟨stepf b, p + 1⟩)) :
    runDecLoop pat (fuel + 1) (blocks.map (fun b => AESGen.mk b p)) =
      ((runDecLoop pat fuel
          (((exchangeColumnsB pat blocks).map stepf).map (fun b => AESGen.mk b (p + 1)))).1,
       (runDecLoop pat fuel
          (((exchangeColumnsB pat blocks).map stepf).map (fun b => AESGen.mk b (p + 1)))).2 + 1) := by
  rw [runDecLoop]
  rw [exchangeGens_map]
  have hne' : exchangeColumnsB pat blocks ≠ [] := by
    intro hnil
    have := length_exchangeColumnsB pat blocks
    rw [hnil] at this
    exact hne (List.eq_nil_of_length_eq_zero this.symm)
  have hmap : ((exchangeColumnsB pat blocks).map (fun b => AESGen.mk b p)).map decNext =
      (exchangeColumnsB pat blocks).map (fun b => (some true, AESGen.mk (stepf b) (p + 1))) := by
    rw [List.map_map]
    exact List.map_congr_left (fun b hb => hstep b hb)
  rw [hmap]
  have hkeep : (((exchangeColumnsB pat blocks).map
      (fun b => ((some true, AESGen.mk (stepf b) (p + 1)) : Option Bool × AESGen))).map
      (fun r => r.1.getD false)).getLastD false = true := by
    rw [List.map_map]
    exact getLastD_map_true _ hne'
  rw [hkeep]
  have hsnd : ((exchangeColumnsB pat blocks).map (fun b => ((some true,
      AESGen.mk (stepf b) (p + 1)) : Option Bool × AESGen))).map Prod.snd =
      ((exchangeColumnsB pat blocks).map stepf).map (fun b => AESGen.mk b (p + 1)) := by
    simp [List.map_map]
  rw [hsnd]
  rcases hres : runDecLoop pat fuel
      (((exchangeColumnsB pat blocks).map stepf).map (fun b => AESGen.mk b (p + 1))) with ⟨res, cnt⟩
  simp [hres]

theorem runDecLoop_last (pat : List (List Nat)) (fuel : Nat) (blocks : List AESBlockSt)
    (hk : ∀ b ∈ exchangeColumnsB pat blocks, b.round_keys.length = 11) :
    runDecLoop pat (fuel + 1) (blocks.map (fun b => AESGen.mk b 9)) =
      (((exchangeColumnsB pat blocks).map (AESBlockSt.addRoundKey 0)).map
        (fun b => AESGen.mk b 10), 1) := by
  rw [runDecLoop]
  rw [exchangeGens_map]
  have hmap : ((exchangeColumnsB pat blocks).map (fun b => AESGen.mk b 9)).map decNext =
      (exchangeColumnsB pat blocks).map
        (fun b => (some false, AESGen.mk (b.addRoundKey 0) 10)) := by
    rw [List.map_map]
    exact List.map_congr_left (fun b hb => decNext_last b (hk b hb))
  rw [hmap]
  have hkeep : (((exchangeColumnsB pat blocks).map (fun b => ((some false,
      AESGen.mk (b.addRoundKey 0) 10) : Option Bool × AESGen))).map
      (fun r => r.1.getD false)).getLastD false = false := by
    rw [List.map_map]
    exact getLastD_map_false _
  rw [hkeep]
  have hsnd : ((exchangeColumnsB pat blocks).map (fun b => ((some false,
      AESGen.mk (b.addRoundKey 0) 10) : Option Bool × AESGen))).map Prod.snd =
      ((exchangeColumnsB pat blocks).map (AESBlockSt.addRoundKey 0)).map
        (fun b => AESGen.mk b 10) := by
    simp [List.map_map]
  rw [hsnd]
  simp


theorem stepInvDec (pat : List (List Nat)) (bs : List AESBlockSt)
    (f : AESBlockSt → AESBlockSt) (hf : ∀ b, (f b).round_keys = b.round_keys)
    (hne : bs ≠ []) (hk : ∀ b ∈ bs, b.round_keys.length = 11) :
    (exchangeColumnsB pat bs).map f ≠ [] ∧
      (∀ b ∈ (exchangeColumnsB pat bs).map f, b.round_keys.length = 11) := by
  have hkx := exchangeColumnsB_keys pat bs hk
  constructor
  · intro hnil
    rw [List.map_eq_nil] at hnil
    have := length_exchangeColumnsB pat bs
    rw [hnil] at this
    exact hne (List.eq_nil_of_length_eq_zero this.symm)
  · intro b hb
    obtain ⟨a, ha, rfl⟩ := List.mem_map.mp hb
    rw [hf a]
    exact hkx a ha

theorem runDecLoop_full (pat : List (List Nat)) (fuel : Nat) (blocks : List AESBlockSt)
    (hne : blocks ≠ []) (hk : ∀ b ∈ blocks, b.round_keys.length = 11) :
    runDecLoop pat (fuel + 10) (blocks.map (fun b => AESGen.mk b 0)) =
      ((decRoundsSpec pat blocks).map (fun b => AESGen.mk b 10), 10) := by
  obtain ⟨hne1, hk1⟩ := stepInvDec pat blocks (fun b => decRoundBody 9 (decPrologue b))
    (fun b => rfl) hne hk
  set s1 := (exchangeColumnsB pat blocks).map (fun b => decRoundBody 9 (decPrologue b)) with hs1
  obtain ⟨hne2, hk2⟩ := stepInvDec pat s1 (decRoundBody 8) (fun b => rfl) hne1 hk1
  set s2 := (exchangeColumnsB pat s1).map (decRoundBody 8) with hs2
  obtain ⟨hne3, hk3⟩ := stepInvDec pat s2 (decRoundBody 7) (fun b => rfl) hne2 hk2
  set s3 := (exchangeColumnsB pat s2).map (decRoundBody 7) with hs3
  obtain ⟨hne4, hk4⟩ := stepInvDec pat s3 (decRoundBody 6) (fun b => rfl) hne3 hk3
  set s4 := (exchangeColumnsB pat s3).map (decRoundBody 6) with hs4
  obtain ⟨hne5, hk5⟩ := stepInvDec pat s4 (decRoundBody 5) (fun b => rfl) hne4 hk4
  set s5 := (exchangeColumnsB pat s4).map (decRoundBody 5) with hs5
  obtain ⟨hne6, hk6⟩ := stepInvDec pat s5 (decRoundBody 4) (fun b => rfl) hne5 hk5
  set s6 := (exchangeColumnsB pat s5).map (decRoundBody 4) with hs6
  obtain ⟨hne7, hk7⟩ := stepInvDec pat s6 (decRoundBody 3) (fun b => rfl) hne6 hk6
  set s7 := (exchangeColumnsB pat s6).map (decRoundBody 3) with hs7
  obtain ⟨hne8, hk8⟩ := stepInvDec pat s7 (decRoundBody 2) (fun b => rfl) hne7 hk7
  set s8 := (exchangeColumnsB pat s7).map (decRoundBody 2) with hs8
  obtain ⟨hne9, hk9⟩ := stepInvDec pat s8 (decRoundBody 1) (fun b => rfl) hne8 hk8
  set s9 := (exchangeColumnsB pat s8).map (decRoundBody 1) with hs9
  have hkx0 := exchangeColumnsB_keys pat blocks hk
  rw [show fuel + 10 = (fuel + 9) + 1 from rfl,
    runDecLoop_step pat (fuel + 9) blocks 0 (fun b => decRoundBody 9 (decPrologue b)) hne
      (fun b hb => decNext_pc0 b (hkx0 b hb))]
  rw [show fuel + 9 = (fuel + 8) + 1 from rfl,
    runDecLoop_step pat (fuel + 8) s1 1 (decRoundBody 8) hne1
      (fun b hb => decNext_mid b 1 (exchangeColumnsB_keys pat s1 hk1 b hb) (by omega) (by omega))]
  rw [show fuel + 8 = (fuel + 7) + 1 from rfl,
    runDecLoop_step pat (fuel + 7) s2 2 (decRoundBody 7) hne2
      (fun b hb => decNext_mid b 2 (exchangeColumnsB_keys pat s2 hk2 b hb) (by omega) (by omega))]
  rw [show fuel + 7 = (fuel + 6) + 1 from rfl,
    runDecLoop_step pat (fuel + 6) s3 3 (decRoundBody 6) hne3
      (fun b hb => decNext_mid b 3 (exchangeColumnsB_keys pat s3 hk3 b hb) (by omega) (by omega))]
  rw [show fuel + 6 = (fuel + 5) + 1 from rfl,
    runDecLoop_step pat (fuel + 5) s4 4 (decRoundBody 5) hne4
      (fun b hb => decNext_mid b 4 (exchangeColumnsB_keys pat s4 hk4 b hb) (by omega) (by omega))]
  rw [show fuel + 5 = (fuel + 4) + 1 from rfl,
    runDecLoop_step pat (fuel + 4) s5 5 (decRoundBody 4) hne5
      (fun b hb => decNext_mid b 5 (exchangeColumnsB_keys pat s5 hk5 b hb) (by omega) (by omega))]
  rw [show fuel + 4 = (fuel + 3) + 1 from rfl,
    runDecLoop_step pat (fuel + 3) s6 6 (decRoundBody 3) hne6
      (fun b hb => decNext_mid b 6 (exchangeColumnsB_keys pat s6 hk6 b hb) (by omega) (by omega))]
  rw [show fuel + 3 = (fuel + 2) + 1 from rfl,
    runDecLoop_step pat (fuel + 2) s7 7 (decRoundBody 2) hne7
      (fun b hb => decNext_mid b 7 (exchangeColumnsB_keys pat s7 hk7 b hb) (by omega) (by omega))]
  rw [show fuel + 2 = (fuel + 1) + 1 from rfl,
    runDecLoop_step pat (fuel + 1) s8 8 (decRoundBody 1) hne8
      (fun b hb => decNext_mid b 8 (exchangeColumnsB_keys pat s8 hk8 b hb) (by omega) (by omega))]
  rw [runDecLoop_last pat fuel s9 (exchangeColumnsB_keys pat s9 hk9)]
  simp only [decRoundsSpec, ← hs1, ← hs2, ← hs3, ← hs4, ← hs5, ← hs6, ← hs7, ← hs8, ← hs9]

theorem runDecryptionRounds_spec (pat : List (List Nat)) (blocks : List AESBlockSt)
    (hne : blocks ≠ []) (hk : ∀ b ∈ blocks, b.round_keys.length = 11) :
    runDecryptionRounds pat blocks = (decRoundsSpec pat blocks, 10) := by
  unfold runDecryptionRounds
  dsimp only
  have hfuel : ∃ f, loopFuel blocks = f + 10 := by
    obtain ⟨a, t, rfl⟩ := List.exists_cons_of_ne_nil hne
    unfold loopFuel
    simp only [List.map_cons, List.foldr_cons]
    have hak : a.round_keys.length = 11 := hk a (List.mem_cons_self a t)
    have : 11 ≤ max a.round_keys.length ((t.map (fun b => b.round_keys.length)).foldr max 0) := by
      rw [hak]
      exact Nat.le_max_left _ _
    exact ⟨max a.round_keys.length ((t.map (fun b => b.round_keys.length)).foldr max 0) + 2 - 10,
      by omega⟩
  obtain ⟨f, hf⟩ := hfuel
  rw [hf, runDecLoop_full pat f blocks hne hk]
  simp [List.map_map]
  have : (AESGen.blk ∘ fun b => AESGen.mk b 10) = id := rfl
  rw [this, List.map_id]

end AESBlake
